import Mathlib

/-!
# Verification of the spreadsheet table-detection engine

Shallow embedding of the table-detection engine of `src/utils/excelParser.js`
(class `ExcelParser`) and `src/utils/headerAnalyzer.js` (class `HeaderAnalyzer`),
together with proofs and refutations of the specification's claims about it.

Modelling conventions:
* A worksheet cell value is `Option Value`: `none` models an absent cell
  (JS `null`/`undefined`), `Value.str`/`Value.num`/`Value.bool` model the
  primitive cell types (numbers are modelled as integers; no claim depends on
  non-integral numerics).
* JS objects used as field maps (`rowData`) are association lists with unique
  keys in insertion order, exactly as JS object keys behave.
* The engine instance's custom header patterns default to the empty list
  (`this.config.customPatterns || []`); the worksheets of the claims use no
  custom patterns, so the regex branch of header detection is the constantly
  false test of an empty pattern list.
* Loops are rendered as folds or fuel-indexed structural recursion; the fuel
  always dominates the number of loop iterations of the JS loop being modelled.
-/

/-- A primitive (non-absent) JS cell value: string, number or boolean. -/
inductive Value where
  | str : String → Value
  | num : Int → Value
  | bool : Bool → Value
deriving DecidableEq, Repr

/-- JS truthiness of a primitive value (used by `filter(Boolean)`):
`""`, `0` and `false` are falsy, everything else is truthy. -/
def truthy : Value → Bool
  | .str s => s ≠ ""
  | .num n => n ≠ 0
  | .bool b => b

/-- The emptiness test `value === null || value === undefined || value === ""`
used by `analyzeRow` and `countConsecutiveEmptyRows`. -/
def isEmptyVal : Option Value → Bool
  | none => true
  | some (.str s) => s = ""
  | some _ => false

/-- A merged-cell rectangle of the worksheet (`!merges` entry):
start row/col and end row/col. -/
structure Merge where
  sr : Nat
  sc : Nat
  er : Nat
  ec : Nat
deriving DecidableEq, Repr

/-- The worksheet as seen by the parser: the decoded range bounds
(`range.e.r`, `range.e.c`, both inclusive; the range starts at row 0,
column 0 as in the source), the cell lookup (`getCellValue`), and the
merged-cell rectangles. -/
structure Grid where
  maxRow : Nat
  maxCol : Nat
  cell : Nat → Nat → Option Value
  merges : List Merge

/-- Build a grid from a rectangular list of rows of the given width. -/
def Grid.ofRows (w : Nat) (rows : List (List (Option Value))) : Grid :=
  { maxRow := rows.length - 1
    maxCol := w - 1
    cell := fun r c => (rows.getD r []).getD c none
    merges := [] }

/-- The regex test `/[A-Za-z]/.test(value)`: the string has an ASCII letter.
(Char-list based so that the kernel can evaluate it.) -/
def containsLetter (s : String) : Bool :=
  s.data.any (fun c => c.isAlpha)

/-- JS `String.prototype.trim`: strip leading and trailing whitespace.
(Char-list based so that the kernel can evaluate it.) -/
def jsTrim (s : String) : String :=
  ⟨((s.data.dropWhile Char.isWhitespace).reverse.dropWhile Char.isWhitespace).reverse⟩

/-- `isPotentialHeader`: only strings qualify; with no custom patterns the test
is: nonempty after trimming and containing at least one letter. -/
def isPotentialHeader : Value → Bool
  | .str s => decide (0 < (jsTrim s).length) && containsLetter s
  | _ => false

/-- `isPotentialData`: a nonempty (after trim) string, a number or a boolean. -/
def isPotentialData : Value → Bool
  | .str s => decide (0 < (jsTrim s).length)
  | .num _ => true
  | .bool _ => true

/-- A detected header cell (`HeaderAnalyzer.getHeaders` element):
row, column, trimmed text and merge level. -/
structure Header where
  row : Nat
  column : Nat
  value : String
  level : Nat
deriving DecidableEq, Repr

/-- `adjustForMergedCells` applied to one header: every merge rectangle whose
top row is the header's row and whose column span contains the header's column
overwrites the level with the number of rows spanned. -/
def adjustHeader (merges : List Merge) (h : Header) : Header :=
  merges.foldl
    (fun h m =>
      if m.sc ≤ h.column ∧ h.column ≤ m.ec ∧ h.row = m.sr then
        { h with level := m.er - m.sr }
      else h)
    h

/-- `HeaderAnalyzer.getHeaders row`: scan every column; a nonempty string cell
containing a letter becomes a header with the trimmed text and level 0, then
merge rectangles adjust the levels. -/
def getHeaders (g : Grid) (row : Nat) : List Header :=
  ((List.range (g.maxCol + 1)).filterMap fun col =>
    match g.cell row col with
    | some (.str s) =>
        if 0 < (jsTrim s).length ∧ containsLetter s then
          some { row := row, column := col, value := jsTrim s, level := 0 }
        else none
    | _ => none).map (adjustHeader g.merges)

/-- `value !== null && value !== undefined && value !== ""` for a whole row:
true when every column of the row is empty. -/
def rowIsEmptyB (g : Grid) (row : Nat) : Bool :=
  (List.range (g.maxCol + 1)).all fun c => isEmptyVal (g.cell row c)

/-- `countConsecutiveEmptyRows currentRow`: the number of consecutive empty
rows strictly after `currentRow`, scanning up to the grid's last row. -/
def countConsecutiveEmptyRows (g : Grid) (currentRow : Nat) : Nat :=
  ((List.range' (currentRow + 1) (g.maxRow - currentRow)).takeWhile
    fun r => rowIsEmptyB g r).length

/-- The result record of `analyzeRow`. -/
structure RowAnalysis where
  isHeaderRow : Bool
  isDataRow : Bool
  isEmpty : Bool
  consecutiveEmptyRows : Nat
  headerCount : Nat
  dataCount : Nat
deriving DecidableEq, Repr

/-- Classification of a single cell inside `analyzeRow`'s column loop:
empty cells bump `emptyCount`, header-like values bump `headerCount`,
otherwise data-like values bump `dataCount`. -/
def isHeaderCell (v : Option Value) : Bool :=
  match v with
  | some x => !isEmptyVal (some x) && isPotentialHeader x
  | none => false

def isDataCell (v : Option Value) : Bool :=
  match v with
  | some x => !isEmptyVal (some x) && !isPotentialHeader x && isPotentialData x
  | none => false

/-- `analyzeRow row`: count empty / header-like / data-like cells over all
columns; a header row has at least two header-like cells, a data row at least
one data-like cell, an empty row only empty cells. -/
def analyzeRow (g : Grid) (row : Nat) : RowAnalysis :=
  let vals := (List.range (g.maxCol + 1)).map (g.cell row)
  let headerCount := vals.countP isHeaderCell
  let dataCount := vals.countP isDataCell
  let emptyCount := vals.countP isEmptyVal
  { isHeaderRow := decide (2 ≤ headerCount)
    isDataRow := decide (0 < dataCount)
    isEmpty := decide (emptyCount = g.maxCol + 1)
    consecutiveEmptyRows := countConsecutiveEmptyRows g row
    headerCount := headerCount
    dataCount := dataCount }

/-- A data row's field map: a JS object keyed by header text. -/
abbrev Row := List (String × Value)

/-- JS object key assignment `obj[k] = v`: overwrite in place when the key
exists, otherwise append (JS objects keep insertion order of keys). -/
def objInsert (obj : Row) (k : String) (v : Value) : Row :=
  if obj.any (fun p => p.1 = k) then
    obj.map (fun p => if p.1 = k then (k, v) else p)
  else obj ++ [(k, v)]

/-- JS object key lookup `obj[k]`, `none` for a missing key (undefined). -/
def jsGet (obj : Row) (k : String) : Option Value :=
  (obj.find? (fun p => p.1 = k)).map (·.2)

/-- `extractRowData row headers`: for each header, the cell at the header's
column keyed by the header's text; `null`/`undefined` cells are omitted
(the empty string is kept: only null/undefined are filtered here). -/
def extractRowData (g : Grid) (row : Nat) (headers : List Header) : Row :=
  headers.foldl
    (fun obj h =>
      match g.cell row h.column with
      | some v => objInsert obj h.value v
      | none => obj)
    []

/-- The `metadata` object of a table; keys are absent (`none`) until the
corresponding pass writes them. -/
structure Metadata where
  indentation : Option Nat := none
  patternType : Option String := none
  contentType : Option String := none
  relationshipType : Option String := none
deriving DecidableEq, Repr

/-- A detected table. The JS object stores child tables and the parent as
object references; here `children` is the list of child table ids and
`parentId` the parent's id, as suggested by the arena representation of the
spec's design notes (ids are the numeric part of the JS `table_${id}`). -/
structure Table where
  id : Nat
  startRow : Nat
  endRow : Nat
  headers : List Header
  dataRows : List Row
  children : List Nat
  parentId : Option Nat
  level : Nat
  metadata : Metadata
  rowCount : Option Nat
deriving DecidableEq, Repr

instance : Inhabited Table :=
  ⟨{ id := 0, startRow := 0, endRow := 0, headers := [], dataRows := []
     children := [], parentId := none, level := 0, metadata := {}
     rowCount := none }⟩

/-- `initializeTable row id`. -/
def initializeTable (g : Grid) (row : Nat) (id : Nat) : Table :=
  { id := id
    startRow := row
    endRow := row
    headers := getHeaders g row
    dataRows := []
    children := []
    parentId := none
    level := 0
    metadata := {}
    rowCount := none }

/-- `getTableIndentation`: column of the first header, 0 when headerless. -/
def getTableIndentation (t : Table) : Nat :=
  match t.headers with
  | [] => 0
  | h :: _ => h.column

/-- `identifyTablePattern`: constantly `"default"`. -/
def identifyTablePattern (_ : Table) : String := "default"

/-- `identifyContentType`: `"numeric"` when some value of the first data row is
a number, `"text"` otherwise, `"unknown"` for a table without data rows. -/
def identifyContentType (t : Table) : String :=
  match t.dataRows with
  | [] => "unknown"
  | r :: _ =>
      if r.any (fun kv => match kv.2 with | .num _ => true | _ => false) then
        "numeric"
      else "text"

/-- `extractTableMetadata`: a fresh metadata object with indentation, pattern
type and content type (any previous keys, `relationshipType` included, are
discarded because the JS code assigns a fresh object literal). -/
def extractTableMetadata (t : Table) : Metadata :=
  { indentation := some (getTableIndentation t)
    patternType := some (identifyTablePattern t)
    contentType := some (identifyContentType t)
    relationshipType := none }

/-- `finalizeTable table endRow`: set the end row, the row count and the
metadata. -/
def finalizeTable (t : Table) (endRow : Nat) : Table :=
  let t1 := { t with endRow := endRow }
  { t1 with
      rowCount := some t1.dataRows.length
      metadata := extractTableMetadata t1 }

/-- The loop state of `findBasicTables`: finished tables, the open table (if
any) and the next table id. -/
structure ScanState where
  tables : List Table
  current : Option Table
  nextId : Nat
deriving DecidableEq

/-- One iteration of the `findBasicTables` row loop. -/
def scanRow (g : Grid) (st : ScanState) (row : Nat) : ScanState :=
  let ra := analyzeRow g row
  match st.current with
  | none =>
      if ra.isHeaderRow then
        { st with current := some (initializeTable g row st.nextId)
                  nextId := st.nextId + 1 }
      else st
  | some t =>
      if ra.isEmpty && decide (1 < ra.consecutiveEmptyRows) then
        { st with tables := st.tables ++ [finalizeTable t (row - 1)]
                  current := none }
      else if !ra.isEmpty then
        let t1 := { t with endRow := row }
        let t2 :=
          if ra.isDataRow then
            { t1 with dataRows := t1.dataRows ++ [extractRowData g row t1.headers] }
          else t1
        { st with current := some t2 }
      else st

/-- The row loop of `findBasicTables`, processing `fuel` rows starting at
`row`. -/
def scanFrom (g : Grid) : Nat → Nat → ScanState → ScanState
  | 0, _, st => st
  | fuel + 1, row, st => scanFrom g fuel (row + 1) (scanRow g st row)

/-- `findBasicTables`: scan rows `0 .. maxRow`; a still-open table at the end
of the scan is finalized with the grid's last row. -/
def findBasicTables (g : Grid) : List Table :=
  let st := scanFrom g (g.maxRow + 1) 0 { tables := [], current := none, nextId := 0 }
  match st.current with
  | some t => st.tables ++ [finalizeTable t g.maxRow]
  | none => st.tables

/-! ## Claim C1 and C2 concrete grids -/

/-- Shorthand for a string cell. -/
def sv (s : String) : Option Value := some (Value.str s)

/-- The C2 failing input: header row, one data row, a run of exactly two
fully empty rows, then another data row. -/
def c2grid : Grid :=
  Grid.ofRows 2
    [ [sv "Name", sv "Code"]
    , [sv "11", sv "22"]
    , [none, none]
    , [none, none]
    , [sv "33", sv "44"] ]

/-! ## Scan lemmas for `findBasicTables` -/

theorem scanFrom_add (g : Grid) (a : Nat) :
    ∀ (b r : Nat) (st : ScanState),
      scanFrom g (a + b) r st = scanFrom g b (r + a) (scanFrom g a r st) := by
  induction a with
  | zero => intro b r st; simp [scanFrom]
  | succ a ih =>
      intro b r st
      have h1 : a + 1 + b = (a + b) + 1 := by omega
      have h2 : r + (a + 1) = (r + 1) + a := by omega
      rw [h1, h2]
      show scanFrom g (a + b) (r + 1) (scanRow g st r) = _
      rw [ih b (r + 1) (scanRow g st r)]
      rfl

/-- Scanning a block of rows that are all non-empty data rows extends the open
table with one extracted data row per row and touches nothing else. -/
theorem scan_data (g : Grid) :
    ∀ (m s : Nat) (ts : List Table) (cur : Table) (id : Nat),
      (∀ i, i < m → (analyzeRow g (s + i)).isEmpty = false ∧
        (analyzeRow g (s + i)).isDataRow = true) →
      ∃ t', scanFrom g m s { tables := ts, current := some cur, nextId := id } =
              { tables := ts, current := some t', nextId := id } ∧
        t'.dataRows.length = cur.dataRows.length + m ∧
        t'.children = cur.children ∧ t'.id = cur.id := by
  intro m
  induction m with
  | zero =>
      intro s ts cur id _
      exact ⟨cur, rfl, by omega, rfl, rfl⟩
  | succ m ih =>
      intro s ts cur id h
      have h0 := h 0 (by omega)
      rw [Nat.add_zero] at h0
      have hrow : scanRow g { tables := ts, current := some cur, nextId := id } s =
          { tables := ts
            current := some { cur with
              endRow := s
              dataRows := cur.dataRows ++ [extractRowData g s cur.headers] }
            nextId := id } := by
        simp [scanRow, h0.1, h0.2]
      show ∃ t', scanFrom g m (s + 1) (scanRow g _ s) = _ ∧ _
      rw [hrow]
      obtain ⟨t', heq, hlen, hch, hid⟩ :=
        ih (s + 1) ts
          { cur with endRow := s
                     dataRows := cur.dataRows ++ [extractRowData g s cur.headers] }
          id
          (fun i hi => by
            have := h (i + 1) (by omega)
            have harith : s + (i + 1) = s + 1 + i := by omega
            rwa [harith] at this)
      refine ⟨t', heq, ?_, hch, hid⟩
      simp at hlen
      omega

theorem isHeaderCell_of_empty {v : Option Value} (h : isEmptyVal v = true) :
    isHeaderCell v = false := by
  cases v with
  | none => rfl
  | some x => simp [isHeaderCell, h]

theorem isDataCell_of_empty {v : Option Value} (h : isEmptyVal v = true) :
    isDataCell v = false := by
  cases v with
  | none => rfl
  | some x => simp [isDataCell, h]

/-- A fully empty row analyzes as empty, not header, not data. -/
theorem analyzeRow_of_blank (g : Grid) (r : Nat) (hb : rowIsEmptyB g r = true) :
    (analyzeRow g r).isEmpty = true ∧ (analyzeRow g r).isHeaderRow = false ∧
      (analyzeRow g r).isDataRow = false := by
  have hall : ∀ c ∈ List.range (g.maxCol + 1), isEmptyVal (g.cell r c) = true := by
    simpa [rowIsEmptyB, List.all_eq_true] using hb
  have hvals : ∀ v ∈ (List.range (g.maxCol + 1)).map (g.cell r), isEmptyVal v = true := by
    intro v hv
    obtain ⟨c, hc, rfl⟩ := List.mem_map.mp hv
    exact hall c hc
  refine ⟨?_, ?_, ?_⟩
  · simp only [analyzeRow]
    have : ((List.range (g.maxCol + 1)).map (g.cell r)).countP isEmptyVal =
        ((List.range (g.maxCol + 1)).map (g.cell r)).length :=
      List.countP_eq_length.mpr hvals
    simp [this]
  · simp only [analyzeRow]
    have : ((List.range (g.maxCol + 1)).map (g.cell r)).countP isHeaderCell = 0 := by
      refine List.countP_eq_zero.mpr ?_
      intro v hv
      simp [isHeaderCell_of_empty (hvals v hv)]
    simp [this]
  · simp only [analyzeRow]
    have : ((List.range (g.maxCol + 1)).map (g.cell r)).countP isDataCell = 0 := by
      refine List.countP_eq_zero.mpr ?_
      intro v hv
      simp [isDataCell_of_empty (hvals v hv)]
    simp [this]

/-- When every row strictly after `s` up to the last row is empty, the
consecutive-empty-row count at `s` is the number of those rows. -/
theorem count_blank_tail (g : Grid) (s : Nat)
    (hall : ∀ r, s + 1 ≤ r → r ≤ g.maxRow → rowIsEmptyB g r = true) :
    countConsecutiveEmptyRows g s = g.maxRow - s := by
  unfold countConsecutiveEmptyRows
  have : (List.range' (s + 1) (g.maxRow - s)).takeWhile (fun r => rowIsEmptyB g r) =
      List.range' (s + 1) (g.maxRow - s) := by
    refine List.takeWhile_eq_self_iff.mpr ?_
    intro r hr
    have := List.mem_range'_1.mp hr
    exact hall r this.1 (by omega)
  rw [this, List.length_range']

/-- Scanning blank rows with no open table changes nothing. -/
theorem scan_blank_none (g : Grid) :
    ∀ (m s : Nat) (ts : List Table) (id : Nat),
      (∀ i, i < m → rowIsEmptyB g (s + i) = true) →
      scanFrom g m s { tables := ts, current := none, nextId := id } =
        { tables := ts, current := none, nextId := id } := by
  intro m
  induction m with
  | zero => intro s ts id _; rfl
  | succ m ih =>
      intro s ts id h
      have h0 := h 0 (by omega)
      rw [Nat.add_zero] at h0
      have hrow : scanRow g { tables := ts, current := none, nextId := id } s =
          { tables := ts, current := none, nextId := id } := by
        simp [scanRow, (analyzeRow_of_blank g s h0).2.1]
      show scanFrom g m (s + 1) (scanRow g _ s) = _
      rw [hrow]
      exact ih (s + 1) ts id (fun i hi => by
        have := h (i + 1) (by omega)
        have harith : s + (i + 1) = s + 1 + i := by omega
        rwa [harith] at this)

/-- Scanning the trailing blank rows `s .. maxRow` with an open table either
finalizes it at `s - 1` (when the run has length at least 3) or leaves the
state unchanged (run of length 1 or 2), because the finalization guard
compares the count of empty rows after the current one with 1. -/
theorem scan_blank_tail (g : Grid) (s : Nat) (ts : List Table) (cur : Table)
    (id : Nat) (hs : s ≤ g.maxRow)
    (hall : ∀ r, s ≤ r → r ≤ g.maxRow → rowIsEmptyB g r = true) :
    scanFrom g (g.maxRow + 1 - s) s { tables := ts, current := some cur, nextId := id } =
        { tables := ts ++ [finalizeTable cur (s - 1)], current := none, nextId := id } ∨
      scanFrom g (g.maxRow + 1 - s) s { tables := ts, current := some cur, nextId := id } =
        { tables := ts, current := some cur, nextId := id } := by
  have hcount : countConsecutiveEmptyRows g s = g.maxRow - s :=
    count_blank_tail g s (fun r h1 h2 => hall r (by omega) h2)
  have hempty := analyzeRow_of_blank g s (hall s (by omega) hs)
  have hfuel : g.maxRow + 1 - s = (g.maxRow - s) + 1 := by omega
  rcases Nat.lt_or_ge (g.maxRow - s) 2 with hd | hd
  · -- run of length 1 or 2 after this row at most 1 more: no finalization
    right
    rw [hfuel]
    have hrow : scanRow g { tables := ts, current := some cur, nextId := id } s =
        { tables := ts, current := some cur, nextId := id } := by
      have : decide (1 < (analyzeRow g s).consecutiveEmptyRows) = false := by
        simp only [analyzeRow]
        simp [hcount]
        omega
      simp [scanRow, hempty.1, this]
    show scanFrom g (g.maxRow - s) (s + 1) (scanRow g _ s) = _
    rw [hrow]
    rcases Nat.lt_or_ge (g.maxRow - s) 1 with h1 | h1
    · interval_cases h : g.maxRow - s
      · rfl
    · have h2 : g.maxRow - s = 1 := by omega
      rw [h2]
      have hcount2 : countConsecutiveEmptyRows g (s + 1) = 0 := by
        have := count_blank_tail g (s + 1) (fun r hr1 hr2 => hall r (by omega) hr2)
        omega
      have hempty2 := analyzeRow_of_blank g (s + 1) (hall (s + 1) (by omega) (by omega))
      have hrow2 : scanRow g { tables := ts, current := some cur, nextId := id } (s + 1) =
          { tables := ts, current := some cur, nextId := id } := by
        have : decide (1 < (analyzeRow g (s + 1)).consecutiveEmptyRows) = false := by
          simp only [analyzeRow]
          simp [hcount2]
        simp [scanRow, hempty2.1, this]
      show scanFrom g 0 (s + 1 + 1) (scanRow g _ (s + 1)) = _
      rw [hrow2]
      rfl
  · -- at least 2 empty rows after this one: finalize here, then nothing happens
    left
    rw [hfuel]
    have hrow : scanRow g { tables := ts, current := some cur, nextId := id } s =
        { tables := ts ++ [finalizeTable cur (s - 1)], current := none, nextId := id } := by
      have : decide (1 < (analyzeRow g s).consecutiveEmptyRows) = true := by
        simp only [analyzeRow]
        simp [hcount]
        omega
      simp [scanRow, hempty.1, this]
    show scanFrom g (g.maxRow - s) (s + 1) (scanRow g _ s) = _
    rw [hrow]
    exact scan_blank_none g (g.maxRow - s) (s + 1) _ id
      (fun i hi => hall (s + 1 + i) (by omega) (by omega))

/-! ## Claim C1: single table detection -/

/-- A grid of the C1 shape: one header row, `drows.length` data rows, then
`k` fully blank rows, over `w` columns. -/
def mkGrid (w : Nat) (hdr : List (Option Value)) (drows : List (List (Option Value)))
    (k : Nat) : Grid :=
  Grid.ofRows w (hdr :: (drows ++ List.replicate k (List.replicate w none)))

theorem getD_replicate_none :
    ∀ (w c : Nat), (List.replicate w (none : Option Value)).getD c none = none := by
  intro w
  induction w with
  | zero => intro c; rfl
  | succ w ih =>
      intro c
      cases c with
      | zero => rfl
      | succ c => exact ih c

theorem mkGrid_maxRow (w : Nat) (hdr : List (Option Value))
    (drows : List (List (Option Value))) (k : Nat) :
    (mkGrid w hdr drows k).maxRow = drows.length + k := by
  simp [mkGrid, Grid.ofRows]

theorem mkGrid_blank (w : Nat) (hdr : List (Option Value))
    (drows : List (List (Option Value))) (k : Nat) :
    ∀ r, drows.length + 1 ≤ r → r ≤ drows.length + k →
      rowIsEmptyB (mkGrid w hdr drows k) r = true := by
  intro r h1 h2
  have hcell : ∀ c, (mkGrid w hdr drows k).cell r c = none := by
    intro c
    show ((hdr :: (drows ++ List.replicate k (List.replicate w none))).getD r []).getD c none = none
    obtain ⟨r', rfl⟩ : ∃ r', r = r' + 1 := ⟨r - 1, by omega⟩
    rw [List.getD_cons_succ]
    rw [List.getD_append_right _ _ _ _ (by omega)]
    have hlt : r' - drows.length < k := by omega
    have : (List.replicate k (List.replicate w (none : Option Value))).getD
        (r' - drows.length) [] = List.replicate w none := by
      rw [List.getD_eq_getElem?_getD, List.getElem?_replicate_of_lt hlt]
      rfl
    rw [this, getD_replicate_none]
  unfold rowIsEmptyB
  refine List.all_eq_true.mpr ?_
  intro c _
  rw [hcell c]
  rfl

/-- Claim C1, general part: for a grid of one header row, `N` contiguous
non-blank data rows, then `k ≥ 2` blank rows, `findBasicTables` returns
exactly one table whose row count is `N`. -/
theorem c1_general (w : Nat) (hdr : List (Option Value))
    (drows : List (List (Option Value))) (k : Nat) (hk : 2 ≤ k)
    (hh : (analyzeRow (mkGrid w hdr drows k) 0).isHeaderRow = true)
    (hd : ∀ i, i < drows.length →
      (analyzeRow (mkGrid w hdr drows k) (1 + i)).isEmpty = false ∧
      (analyzeRow (mkGrid w hdr drows k) (1 + i)).isDataRow = true) :
    ∃ t, findBasicTables (mkGrid w hdr drows k) = [t] ∧
      t.rowCount = some drows.length := by
  set g := mkGrid w hdr drows k with hg
  set n := drows.length with hn
  have hmax : g.maxRow = n + k := mkGrid_maxRow w hdr drows k
  -- step 1: the header row opens a table
  have hstep1 : scanRow g { tables := [], current := none, nextId := 0 } 0 =
      { tables := [], current := some (initializeTable g 0 0), nextId := 1 } := by
    simp [scanRow, hh]
  -- step 2: the data rows extend it
  obtain ⟨t', heq2, hlen, _, _⟩ :=
    scan_data g n 1 [] (initializeTable g 0 0) 1 (fun i hi => hd i hi)
  have hlen' : t'.dataRows.length = n := by
    simpa [initializeTable] using hlen
  -- step 3: the trailing blank rows
  have hblank : ∀ r, n + 1 ≤ r → r ≤ g.maxRow → rowIsEmptyB g r = true := by
    intro r hr1 hr2
    exact mkGrid_blank w hdr drows k r hr1 (by omega)
  have hs : n + 1 ≤ g.maxRow := by omega
  have htail := scan_blank_tail g (n + 1) [] t' 1 hs hblank
  -- assemble the full scan
  have hsplit : g.maxRow + 1 = 1 + n + (g.maxRow + 1 - (n + 1)) := by omega
  have hinner : scanFrom g (1 + n) 0 { tables := [], current := none, nextId := 0 } =
      { tables := [], current := some t', nextId := 1 } := by
    have h1n : 1 + n = n + 1 := by omega
    rw [h1n]
    show scanFrom g n 1 (scanRow g { tables := [], current := none, nextId := 0 } 0) = _
    rw [hstep1]
    exact heq2
  have hscan : scanFrom g (g.maxRow + 1) 0 { tables := [], current := none, nextId := 0 } =
      scanFrom g (g.maxRow + 1 - (n + 1)) (n + 1)
        { tables := [], current := some t', nextId := 1 } := by
    rw [hsplit, scanFrom_add, hinner, Nat.zero_add]
    have h1n : 1 + n = n + 1 := by omega
    rw [h1n]
    congr 1
    omega
  unfold findBasicTables
  rw [hscan]
  rcases htail with hfin | hopen
  · rw [hfin]
    exact ⟨finalizeTable t' (n + 1 - 1), rfl, by simp [finalizeTable, hlen']⟩
  · rw [hopen]
    exact ⟨finalizeTable t' g.maxRow, rfl, by simp [finalizeTable, hlen']⟩

/-- The grid of the C1 scenario: header row
`["Product Name","Barcode","External Code","QTY"]`, one data row
`("Widget","123","EXT1","5")`, then two fully empty rows. -/
def c1grid : Grid :=
  mkGrid 4
    [sv "Product Name", sv "Barcode", sv "External Code", sv "QTY"]
    [[sv "Widget", sv "123", sv "EXT1", sv "5"]]
    2

/-- C1: for every grid of the shape: one header row, `N` contiguous non-blank
data rows, then at least two trailing blank rows, `findBasicTables` returns
exactly one table whose `rowCount` equals `N`; and in the concrete instance
with header row Product Name / Barcode / External Code / QTY and one data row
(Widget, 123, EXT1, 5), the single finalized table has `rowCount = 1` and
`dataRows[0]["QTY"] = "5"`. -/
theorem claim_C1_single_table_detection :
    (∀ (w : Nat) (hdr : List (Option Value)) (drows : List (List (Option Value)))
        (k : Nat),
        2 ≤ k →
        (analyzeRow (mkGrid w hdr drows k) 0).isHeaderRow = true →
        (∀ i, i < drows.length →
          (analyzeRow (mkGrid w hdr drows k) (1 + i)).isEmpty = false ∧
          (analyzeRow (mkGrid w hdr drows k) (1 + i)).isDataRow = true) →
        ∃ t, findBasicTables (mkGrid w hdr drows k) = [t] ∧
          t.rowCount = some drows.length) ∧
    (∃ t, findBasicTables c1grid = [t] ∧ t.rowCount = some 1 ∧
      jsGet (t.dataRows.getD 0 []) "QTY" = some (Value.str "5")) := by
  refine ⟨c1_general, ⟨(findBasicTables c1grid).getD 0 default, ?_⟩⟩
  decide

/-- Witness for C1: the general statement applied to the concrete scenario
grid, all hypotheses discharged by evaluation. -/
theorem claim_C1_single_table_detection_witness :
    ∃ t, findBasicTables
        (mkGrid 4 [sv "Product Name", sv "Barcode", sv "External Code", sv "QTY"]
          [[sv "Widget", sv "123", sv "EXT1", sv "5"]] 2) = [t] ∧
      t.rowCount = some 1 :=
  claim_C1_single_table_detection.1 4
    [sv "Product Name", sv "Barcode", sv "External Code", sv "QTY"]
    [[sv "Widget", sv "123", sv "EXT1", sv "5"]] 2
    (by decide)
    (by decide)
    (by intro i hi
        have h1 : i = 0 := by simp at hi; omega
        subst h1
        exact ⟨by decide, by decide⟩)

/-- C2 (evaluation at the failing input): in `c2grid` the rows 2 and 3 form a
run of exactly two consecutive fully blank rows inside an open table, yet the
scan does not finalize the table there: `findBasicTables` returns one table
reaching `endRow = 4` with both data rows (`rowCount = 2`), where the claim
(and the code's own comment) demand finalization at the start of the run with
`endRow = 1` and `rowCount = 1`. -/
theorem claim_C2_blank_run_code_eval :
    rowIsEmptyB c2grid 2 = true ∧ rowIsEmptyB c2grid 3 = true ∧
    rowIsEmptyB c2grid 4 = false ∧
    (findBasicTables c2grid).map (fun t => (t.startRow, t.endRow, t.rowCount)) =
      [(0, 4, some 2)] := by
  decide

/-! ## Row deduplication (`processTableData` / `findMatchingRow`) -/

/-- `findMatchingRow`'s per-row test: kept row `kept` matches candidate `cand`
when `kept` holds an identical value on strictly more than 70% of `cand`'s own
keys (`matchScore / keys.length > 0.7`, rendered exactly over the integers;
the comparison is equivalent to the JS floating-point one for every key count
in scope). -/
def rowsMatch (kept cand : Row) : Bool :=
  decide (7 * cand.length <
    10 * cand.countP (fun kv => jsGet kept kv.1 == some kv.2))

/-- The `processTableData` accumulation loop: keep a row only when no
already-kept row matches it. -/
def dedupRowsAux : List Row → List Row → List Row
  | uniq, [] => uniq
  | uniq, r :: rest =>
      if uniq.any (fun k => rowsMatch k r) then dedupRowsAux uniq rest
      else dedupRowsAux (uniq ++ [r]) rest

/-- `processTableData`: replace the table's data rows by the deduplicated
list. -/
def processTableData (t : Table) : Table :=
  { t with dataRows := dedupRowsAux [] t.dataRows }

theorem dedupRowsAux_shape :
    ∀ (rows uniq : List Row),
      ∃ extra, dedupRowsAux uniq rows = uniq ++ extra ∧ extra.Sublist rows := by
  intro rows
  induction rows with
  | nil => intro uniq; exact ⟨[], by simp [dedupRowsAux], List.nil_sublist _⟩
  | cons r rest ih =>
      intro uniq
      by_cases hm : uniq.any (fun k => rowsMatch k r) = true
      · obtain ⟨extra, heq, hsub⟩ := ih uniq
        exact ⟨extra, by simp [dedupRowsAux, hm, heq], hsub.cons r⟩
      · obtain ⟨extra, heq, hsub⟩ := ih (uniq ++ [r])
        refine ⟨r :: extra, ?_, hsub.cons₂ r⟩
        simp only [dedupRowsAux, hm]
        simp only [Bool.false_eq_true, if_false]
        rw [heq]
        simp

theorem dedupRowsAux_pairwise :
    ∀ (rows uniq : List Row),
      List.Pairwise (fun a b => rowsMatch a b = false) uniq →
      List.Pairwise (fun a b => rowsMatch a b = false) (dedupRowsAux uniq rows) := by
  intro rows
  induction rows with
  | nil => intro uniq h; simpa [dedupRowsAux] using h
  | cons r rest ih =>
      intro uniq h
      by_cases hm : uniq.any (fun k => rowsMatch k r) = true
      · simpa [dedupRowsAux, hm] using ih uniq h
      · have hnone : ∀ k ∈ uniq, rowsMatch k r = false := by
          intro k hk
          cases h' : rowsMatch k r
          · rfl
          · exact absurd (List.any_eq_true.mpr ⟨k, hk, h'⟩) hm
        have hpw : List.Pairwise (fun a b => rowsMatch a b = false) (uniq ++ [r]) := by
          rw [List.pairwise_append]
          exact ⟨h, List.pairwise_singleton _ _, fun a ha b hb => by
            rw [List.mem_singleton] at hb
            subst hb
            exact hnone a ha⟩
        simp only [dedupRowsAux, hm]
        simp only [Bool.false_eq_true, if_false]
        exact ih (uniq ++ [r]) hpw

theorem dedupRowsAux_complete :
    ∀ (rows uniq : List Row) (r : Row), r ∈ rows →
      r ∈ dedupRowsAux uniq rows ∨
        ∃ k ∈ dedupRowsAux uniq rows, rowsMatch k r = true := by
  intro rows
  induction rows with
  | nil => intro uniq r hr; cases hr
  | cons q rest ih =>
      intro uniq r hr
      by_cases hm : uniq.any (fun k => rowsMatch k q) = true
      · have hstep : dedupRowsAux uniq (q :: rest) = dedupRowsAux uniq rest := by
          simp [dedupRowsAux, hm]
        rcases List.mem_cons.mp hr with rfl | htail
        · obtain ⟨k, hk, hkr⟩ := List.any_eq_true.mp hm
          obtain ⟨extra, heq, _⟩ := dedupRowsAux_shape rest uniq
          right
          exact ⟨k, by rw [hstep, heq]; exact List.mem_append_left _ hk, hkr⟩
        · rw [hstep]; exact ih uniq r htail
      · have hstep : dedupRowsAux uniq (q :: rest) = dedupRowsAux (uniq ++ [r]) rest ∨
            dedupRowsAux uniq (q :: rest) = dedupRowsAux (uniq ++ [q]) rest := by
          right
          simp only [dedupRowsAux, hm]
          simp
        rcases List.mem_cons.mp hr with rfl | htail
        · obtain ⟨extra, heq, _⟩ := dedupRowsAux_shape rest (uniq ++ [r])
          left
          have : dedupRowsAux uniq (r :: rest) = dedupRowsAux (uniq ++ [r]) rest := by
            simp only [dedupRowsAux, hm]
            simp
          rw [this, heq]
          exact List.mem_append_left _ (List.mem_append_right _ (List.mem_singleton_self r))
        · have : dedupRowsAux uniq (q :: rest) = dedupRowsAux (uniq ++ [q]) rest := by
            simp only [dedupRowsAux, hm]
            simp
          rw [this]
          exact ih (uniq ++ [q]) r htail

/-- C4: `processTableData` keeps the data rows in their original order (the
result is a sublist of the input), every dropped row instance matches some
retained row, and for every pair of retained rows the earlier row does not
agree with the later row on strictly more than 70% of the later row's own
fields. -/
theorem claim_C4_dedup (t : Table) :
    (processTableData t).dataRows.Sublist t.dataRows ∧
    List.Pairwise (fun a b => rowsMatch a b = false) (processTableData t).dataRows ∧
    (∀ r ∈ t.dataRows, r ∈ (processTableData t).dataRows ∨
      ∃ k ∈ (processTableData t).dataRows, rowsMatch k r = true) := by
  refine ⟨?_, ?_, ?_⟩
  · obtain ⟨extra, heq, hsub⟩ := dedupRowsAux_shape t.dataRows []
    show dedupRowsAux [] t.dataRows |>.Sublist t.dataRows
    rw [heq]
    simpa using hsub
  · exact dedupRowsAux_pairwise t.dataRows [] (List.Pairwise.nil)
  · intro r hr
    exact dedupRowsAux_complete t.dataRows [] r hr

/-! ## Pattern extraction (`extractDataPattern` and helpers) -/

/-- The anchored-prefix regex `/^\d{4}-\d{2}-\d{2}/`. -/
def ymdStart (s : String) : Bool :=
  match s.data with
  | a :: b :: c :: d :: '-' :: e :: f :: '-' :: g :: h :: _ =>
      a.isDigit && b.isDigit && c.isDigit && d.isDigit &&
        e.isDigit && f.isDigit && g.isDigit && h.isDigit
  | _ => false

/-- The anchored-prefix regex `/^\d{2}\/\d{2}\/\d{4}/`. -/
def mdyStart (s : String) : Bool :=
  match s.data with
  | a :: b :: '/' :: c :: d :: '/' :: e :: f :: g :: h :: _ =>
      a.isDigit && b.isDigit && c.isDigit && d.isDigit &&
        e.isDigit && f.isDigit && g.isDigit && h.isDigit
  | _ => false

/-- The fully anchored regex `/^[A-Z0-9-]+$/`. -/
def codeChars (s : String) : Bool :=
  !s.data.isEmpty && s.data.all (fun c => c.isUpper || c.isDigit || c == '-')

/-- `identifyValueType`: native number/boolean first, then date prefix,
code shape, else text. -/
def identifyValueType : Value → String
  | .num _ => "number"
  | .bool _ => "boolean"
  | .str s =>
      if ymdStart s then "date"
      else if mdyStart s then "date"
      else if codeChars s then "code"
      else "text"

/-- JS `toString` of a primitive value. -/
def jsToString : Value → String
  | .str s => s
  | .num n => toString n
  | .bool b => if b then "true" else "false"

/-- `detectDateFormat`. -/
def detectDateFormat (sample : String) : Option String :=
  if ymdStart sample then some "YYYY-MM-DD"
  else if mdyStart sample then some "MM/DD/YYYY"
  else none

/-- Models `!isNaN(sample)` for a string: JS `Number` coercion yields a
non-NaN number. Blank strings coerce to 0; otherwise an optional sign
followed by a decimal literal (`12`, `12.5`, `.5`, `3.`) is accepted.
Exponent, hexadecimal and `Infinity` forms are not modelled; no claim
exercises them. -/
def jsIsNumericString (s : String) : Bool :=
  let t := (jsTrim s).data
  if t.isEmpty then true
  else
    let t1 := match t with
      | c :: rest => if c == '-' || c == '+' then rest else t
      | [] => t
    let intPart := t1.takeWhile Char.isDigit
    let rest := t1.dropWhile Char.isDigit
    match rest with
    | [] => !intPart.isEmpty
    | '.' :: frac => (!intPart.isEmpty || !frac.isEmpty) && frac.all Char.isDigit
    | _ => false

/-- The `{type, format}` object returned by `detectFormat` (fields renamed
`ftype`/`fmt` because `format` nests). -/
structure FormatInfo where
  ftype : String
  fmt : Option String
deriving DecidableEq, Repr

/-- The branches of `detectFormat` after the date attempt: numeric sample,
code-shaped sample, else text. -/
def formatTail (sample : String) : FormatInfo :=
  if jsIsNumericString sample then ⟨"number", some "standard"⟩
  else if codeChars sample then ⟨"code", some "alphanumeric"⟩
  else ⟨"text", none⟩

/-- `detectFormat values`: look at `values[0].toString()`; when it contains a
slash or dash try the date formats first, otherwise (or when no date format
matches) fall through to number / code / text. -/
def detectFormat (values : List Value) : FormatInfo :=
  let sample := jsToString (values.headD (Value.str ""))
  if sample.data.contains '/' || sample.data.contains '-' then
    match detectDateFormat sample with
    | some f => ⟨"date", some f⟩
    | none => formatTail sample
  else formatTail sample

/-- The pattern record of `extractDataPattern` (JS key `type` is rendered as
`ptype`). -/
structure Pattern where
  ptype : String
  format : FormatInfo
  isUnique : Bool
  hasNulls : Bool
  examples : List Value
deriving DecidableEq, Repr

/-- The column values used by `extractDataPattern`:
`table.dataRows.map(row => row[header.value]).filter(Boolean)` — the lookup
followed by the truthiness filter, which drops absent values, empty strings,
zeros and `false`. -/
def truthyValues (t : Table) (h : Header) : List Value :=
  t.dataRows.filterMap (fun r => (jsGet r h.value).filter truthy)

/-- The test `v === null || v === undefined` applied to elements of the
filtered value list: such elements are proper values, so the test is
constantly false. -/
def jsIsNull (_ : Value) : Bool := false

/-- `extractDataPattern table header`. -/
def extractDataPattern (t : Table) (h : Header) : Option Pattern :=
  match truthyValues t h with
  | [] => none
  | v :: rest =>
      some
        { ptype := identifyValueType v
          format := detectFormat (v :: rest)
          isUnique := decide ((v :: rest).dedup.length = (v :: rest).length)
          hasNulls := (v :: rest).any jsIsNull
          examples := (v :: rest).take 3 }

theorem any_jsIsNull (l : List Value) : l.any jsIsNull = false := by
  induction l with
  | nil => rfl
  | cons v rest ih => simp [jsIsNull, ih]

/-- A concrete table for the C8 counterexample: `dataRows[0]` lacks the
`"QTY"` key entirely, `dataRows[1]` has it. -/
def c8tab : Table :=
  { (default : Table) with
      dataRows :=
        [ [("A", Value.str "x")]
        , [("A", Value.str "x"), ("QTY", Value.str "abc")] ] }

def c8hdr : Header := { row := 0, column := 1, value := "QTY", level := 0 }

/-- Counterexample to C8: the `"QTY"` value of the first data row is absent,
yet the reported pattern has `hasNulls = false` — refuting the claim's
"`hasNulls` holds iff some value of the column is absent" (the code filters
out falsy values before the null check, so `hasNulls` can never be true). -/
theorem claim_C8_counterexample :
    jsGet (c8tab.dataRows.getD 0 []) "QTY" = none ∧
    (extractDataPattern c8tab c8hdr).map Pattern.hasNulls = some false := by
  decide

/-- C8 as amended: the concrete date-column instance behaves exactly as
claimed, and in general all pattern quantities are computed over the truthy
values of the column: `hasNulls` is always false, `isUnique` iff the distinct
truthy-value count equals the truthy-value count, `examples` is the first
three truthy values. -/
theorem claim_C8_amended :
    (∀ (t : Table) (h : Header),
        truthyValues t h = [Value.str "2024-01-01", Value.str "2024-02-01"] →
        extractDataPattern t h = some
          { ptype := "date"
            format := ⟨"date", some "YYYY-MM-DD"⟩
            isUnique := true
            hasNulls := false
            examples := [Value.str "2024-01-01", Value.str "2024-02-01"] }) ∧
    (∀ (t : Table) (h : Header) (p : Pattern),
        extractDataPattern t h = some p →
        p.hasNulls = false ∧
        p.isUnique = decide ((truthyValues t h).dedup.length =
          (truthyValues t h).length) ∧
        p.examples = (truthyValues t h).take 3) := by
  constructor
  · intro t h hv
    unfold extractDataPattern
    rw [hv]
    decide
  · intro t h p hp
    unfold extractDataPattern at hp
    cases hv : truthyValues t h with
    | nil => rw [hv] at hp; cases hp
    | cons v rest =>
        rw [hv] at hp
        have hp' := Option.some.inj hp
        subst hp'
        exact ⟨any_jsIsNull _, rfl, rfl⟩

/-- A concrete date column for the C8 witness. -/
def c8dtab : Table :=
  { (default : Table) with
      dataRows :=
        [ [("Date", Value.str "2024-01-01")]
        , [("Date", Value.str "2024-02-01")] ] }

def c8dhdr : Header := { row := 0, column := 0, value := "Date", level := 0 }

/-- Witness for C8 amended: applied to a concrete two-row date column. -/
theorem claim_C8_amended_witness :
    extractDataPattern c8dtab c8dhdr = some
      { ptype := "date"
        format := ⟨"date", some "YYYY-MM-DD"⟩
        isUnique := true
        hasNulls := false
        examples := [Value.str "2024-01-01", Value.str "2024-02-01"] } :=
  claim_C8_amended.1 c8dtab c8dhdr (by decide)

/-! ## Hierarchy analysis (`analyzeTableHierarchy` and helpers) -/

/-- The reset applied to each table processed by the outer loop of
`analyzeTableHierarchy`: `children = []`, `level = 0`, `parent = null`. -/
def resetTop (t : Table) : Table :=
  { t with children := [], level := 0, parentId := none }

/-- The mutation applied to a claimed child: `level = parent.level + 1`,
`parent = currentTable` (stored as the parent's id). -/
def claimChild (p u : Table) : Table :=
  { u with level := p.level + 1, parentId := some p.id }

/-- `isChildTable parentTable potentialChild`: the child starts exactly one
row after the parent ends and its first header's column (0 when headerless)
strictly exceeds the parent's. -/
def isChildTable (p u : Table) : Bool :=
  if u.startRow = p.endRow + 1 then
    decide (getTableIndentation p < getTableIndentation u)
  else false

/-- The double loop of `analyzeTableHierarchy`, rendered recursively over the
list of still-unprocessed tables: the first unprocessed table is reset and
claims, among the later unprocessed tables, exactly those satisfying
`isChildTable`; the claimed tables are marked processed (removed from the
remainder) and the rest is processed recursively. `isChildTable` reads only
fields this pass never mutates, so testing against the input values is exact.
Each result entry pairs a top-level table (children holding the claimed ids,
as the JS pushes the child objects) with its claimed children. The fuel
dominates the recursion depth, as each step consumes the head. -/
def hierRecF : Nat → List Table → List (Table × List Table)
  | 0, _ => []
  | _ + 1, [] => []
  | fuel + 1, t :: rest =>
      ({ resetTop t with
          children := (rest.filter (fun u => isChildTable (resetTop t) u)).map Table.id },
        (rest.filter (fun u => isChildTable (resetTop t) u)).map (claimChild (resetTop t))) ::
        hierRecF fuel (rest.filter (fun u => !isChildTable (resetTop t) u))

def hierRec (ts : List Table) : List (Table × List Table) :=
  hierRecF ts.length ts

/-- The label computed by `analyzeTableRelationships` for one table. -/
def relType (t : Table) : String :=
  if t.children ≠ [] then "parent"
  else if t.parentId.isSome then "child"
  else "independent"

/-- The per-table mutation of `analyzeTableRelationships`. -/
def withRelType (t : Table) : Table :=
  { t with metadata := { t.metadata with relationshipType := some (relType t) } }

/-- `analyzeTableRelationships`: stamp each table of the given list with its
relationship label. The source calls this on `hierarchicalTables` only — the
top-level list — so claimed children are never stamped. -/
def analyzeTableRelationships (ts : List Table) : List Table :=
  ts.map withRelType

/-- The top-level table list built by `analyzeTableHierarchy` before
validation: the outer-loop survivors, labelled by
`analyzeTableRelationships`. -/
def hierTops (ts : List Table) : List Table :=
  analyzeTableRelationships ((hierRec ts).map Prod.fst)

theorem map_id_claimChild (p : Table) (l : List Table) :
    (l.map (claimChild p)).map Table.id = l.map Table.id := by
  induction l with
  | nil => rfl
  | cons u rest ih =>
      show Table.id (claimChild p u) :: _ = Table.id u :: _
      rw [show Table.id (claimChild p u) = Table.id u from rfl, ih]

theorem hierRecF_entries :
    ∀ (fuel : Nat) (ts : List Table), ∀ e ∈ hierRecF fuel ts,
      ∃ t, t ∈ ts ∧
        e.1 = { t with children := e.2.map Table.id, level := 0, parentId := none } ∧
        ∀ k ∈ e.2, ∃ u, u ∈ ts ∧ isChildTable t u = true ∧
          k = { u with level := 1, parentId := some t.id } := by
  intro fuel
  induction fuel with
  | zero => intro ts e he; cases he
  | succ fuel ih =>
      intro ts e he
      cases ts with
      | nil => cases he
      | cons t rest =>
          rcases List.mem_cons.mp he with rfl | htail
          · refine ⟨t, List.mem_cons_self _ _, ?_, ?_⟩
            · show ({ resetTop t with
                  children := (rest.filter (fun u => isChildTable (resetTop t) u)).map
                    Table.id } : Table) = _
              rw [show (({ resetTop t with
                  children := (rest.filter (fun u => isChildTable (resetTop t) u)).map
                    Table.id }, (rest.filter (fun u => isChildTable (resetTop t) u)).map
                      (claimChild (resetTop t))) : Table × List Table).2 =
                (rest.filter (fun u => isChildTable (resetTop t) u)).map
                  (claimChild (resetTop t)) from rfl]
              rw [map_id_claimChild]
              rfl
            · intro k hk
              obtain ⟨u, hu, rfl⟩ := List.mem_map.mp hk
              have humem := List.mem_of_mem_filter hu
              have hrel : isChildTable (resetTop t) u = true := (List.mem_filter.mp hu).2
              refine ⟨u, List.mem_cons_of_mem _ humem, ?_, rfl⟩
              exact hrel
          · obtain ⟨t', ht', h1, h2⟩ := ih _ e htail
            refine ⟨t', List.mem_cons_of_mem _ (List.mem_of_mem_filter ht'), h1, ?_⟩
            intro k hk
            obtain ⟨u, hu, h3, h4⟩ := h2 k hk
            exact ⟨u, List.mem_cons_of_mem _ (List.mem_of_mem_filter hu), h3, h4⟩

theorem hierRecF_ids_perm :
    ∀ (fuel : Nat) (ts : List Table), ts.length ≤ fuel →
      ((hierRecF fuel ts).flatMap fun e => e.1.id :: e.2.map Table.id).Perm
        (ts.map Table.id) := by
  intro fuel
  induction fuel with
  | zero =>
      intro ts h
      have hnil : ts = [] := List.length_eq_zero.mp (by omega)
      subst hnil
      exact List.Perm.refl _
  | succ fuel ih =>
      intro ts h
      cases ts with
      | nil => exact List.Perm.refl _
      | cons t rest =>
          have hlen : (rest.filter (fun u => !isChildTable (resetTop t) u)).length ≤ fuel := by
            have := List.length_filter_le (fun u => !isChildTable (resetTop t) u) rest
            simp at h
            omega
          have hrec := ih _ hlen
          show (t.id :: (((rest.filter (fun u => isChildTable (resetTop t) u)).map
            (claimChild (resetTop t))).map Table.id ++ _)).Perm (t.id :: rest.map Table.id)
          refine List.Perm.cons t.id ?_
          rw [map_id_claimChild]
          refine List.Perm.trans (List.Perm.append_left _ hrec) ?_
          have := List.filter_append_perm (fun u => isChildTable (resetTop t) u) rest
          rw [← List.map_append]
          exact this.map Table.id

/-- The three tables of the C5 refutation: `c5T0` claims `c5T1` as a child;
`c5T2` is adjacent and more indented than `c5T1` (so `c5T1` is its first and
only matching parent in detection order) but `c5T1`, being claimed, is
skipped by the outer loop. -/
def c5T0 : Table :=
  { (default : Table) with
      id := 0, startRow := 0, endRow := 4
      headers := [{ row := 0, column := 0, value := "Alpha", level := 0 }] }

def c5T1 : Table :=
  { (default : Table) with
      id := 1, startRow := 5, endRow := 10
      headers := [{ row := 5, column := 3, value := "Beta", level := 0 }] }

def c5T2 : Table :=
  { (default : Table) with
      id := 2, startRow := 11, endRow := 12
      headers := [{ row := 11, column := 6, value := "Gamma", level := 0 }] }

/-- Counterexample to C5: `isChildTable c5T1 c5T2` holds and no earlier table
matches `c5T2`, so under the claim the first matching parent `c5T1` wins and
`c5T2.parent = c5T1`; but the code skips the already-claimed `c5T1` in the
outer loop, and `c5T2` ends up top-level with no parent and no children
contain it. -/
theorem claim_C5_counterexample :
    isChildTable c5T1 c5T2 = true ∧ isChildTable c5T0 c5T2 = false ∧
    (hierRec [c5T0, c5T1, c5T2]).map
        (fun e => (e.1.id, e.1.parentId, e.2.map Table.id)) =
      [(0, none, [1]), (2, none, [])] := by
  decide

/-- C5 as amended: `analyzeTableHierarchy` makes `B` a child of `A` only when
`B.startRow = A.endRow + 1` and `B`'s first header column strictly exceeds
`A`'s, and only when `A` itself survives as a top-level table; every
assignment sets `B.parent = A`, `B.level = A.level + 1 = 1`, records `B`
among `A`'s children and removes `B` from the top level; counting
multiplicity, every input table occurs exactly once in the output — as a
top-level table or as a child of exactly one parent. -/
theorem claim_C5_hierarchy_assignment (ts : List Table) :
    (∀ e ∈ hierRec ts, ∃ t, t ∈ ts ∧
      e.1 = { t with children := e.2.map Table.id, level := 0, parentId := none } ∧
      ∀ k ∈ e.2, k.id ∈ e.1.children ∧ ∃ u, u ∈ ts ∧ isChildTable t u = true ∧
        k = { u with level := 1, parentId := some t.id }) ∧
    ((hierRec ts).flatMap fun e => e.1.id :: e.2.map Table.id).Perm
      (ts.map Table.id) := by
  constructor
  · intro e he
    obtain ⟨t, ht, h1, h2⟩ := hierRecF_entries ts.length ts e he
    refine ⟨t, ht, h1, fun k hk => ⟨?_, h2 k hk⟩⟩
    rw [h1]
    exact List.mem_map_of_mem Table.id hk
  · exact hierRecF_ids_perm ts.length ts (Nat.le_refl _)

/-- Witness for the amended C5: its first part applied to the concrete entry
`(hierRec [c5T0, c5T1, c5T2]).getD 0 default`, membership discharged by
evaluation. -/
theorem claim_C5_hierarchy_assignment_witness :
    ∃ t, t ∈ [c5T0, c5T1, c5T2] ∧
      ((hierRec [c5T0, c5T1, c5T2]).getD 0 default).1 =
        { t with
            children := ((hierRec [c5T0, c5T1, c5T2]).getD 0 default).2.map Table.id
            level := 0, parentId := none } ∧
      ∀ k ∈ ((hierRec [c5T0, c5T1, c5T2]).getD 0 default).2,
        k.id ∈ ((hierRec [c5T0, c5T1, c5T2]).getD 0 default).1.children ∧
        ∃ u, u ∈ [c5T0, c5T1, c5T2] ∧ isChildTable t u = true ∧
          k = { u with level := 1, parentId := some t.id } :=
  (claim_C5_hierarchy_assignment [c5T0, c5T1, c5T2]).1
    ((hierRec [c5T0, c5T1, c5T2]).getD 0 default) (by decide)

/-- The two tables of the C6 refutation: `c6B` is adjacent to and more
indented than `c6A`, so it is claimed as a child. -/
def c6A : Table :=
  { (default : Table) with
      id := 0, startRow := 0, endRow := 4
      headers := [{ row := 0, column := 0, value := "Alpha", level := 0 }] }

def c6B : Table :=
  { (default : Table) with
      id := 1, startRow := 5, endRow := 6
      headers := [{ row := 5, column := 2, value := "Beta", level := 0 }] }

/-- Counterexample to C6: `c6B` is a detected table with a parent, but after
all assignments its `metadata.relationshipType` is not set at all (`none`
rather than `"child"`): the labelling pass iterates only the top-level list,
from which claimed children were removed. -/
theorem claim_C6_counterexample :
    ((hierRec [c6A, c6B]).flatMap Prod.snd).map
        (fun k => (k.id, k.parentId, k.metadata.relationshipType)) =
      [(1, some 0, none)] ∧
    (hierTops [c6A, c6B]).map (fun t => (t.id, t.metadata.relationshipType)) =
      [(0, some "parent")] := by
  decide

/-- C6 as amended: every table remaining in the top-level list returned by
`analyzeTableHierarchy` has `relationshipType` set — `"parent"` when it has
children, else `"independent"` (the `"child"` label is unreachable because
returned tables never have a parent); a table claimed as a child is dropped
from the labelled list and keeps its input metadata untouched. -/
theorem claim_C6_relationship_labels (ts : List Table) :
    (∀ p ∈ hierTops ts, p.parentId = none ∧
      p.metadata.relationshipType =
        some (if p.children = [] then "independent" else "parent")) ∧
    (∀ e ∈ hierRec ts, ∀ k ∈ e.2, ∃ u, u ∈ ts ∧ k.metadata = u.metadata) := by
  constructor
  · intro p hp
    obtain ⟨q0, hq0, rfl⟩ := List.mem_map.mp hp
    obtain ⟨e, he, rfl⟩ := List.mem_map.mp hq0
    obtain ⟨t, _, h1, _⟩ := hierRecF_entries ts.length ts e he
    constructor
    · show e.1.parentId = none
      rw [h1]
    · show some (relType e.1) = some (if e.1.children = [] then "independent" else "parent")
      congr 1
      unfold relType
      by_cases hch : e.1.children = []
      · rw [if_neg (by simp [hch]), if_pos hch]
        have : e.1.parentId = none := by rw [h1]
        rw [this]
        rfl
      · rw [if_pos hch, if_neg hch]
  · intro e he k hk
    obtain ⟨t, _, _, h2⟩ := hierRecF_entries ts.length ts e he
    obtain ⟨u, hu, _, rfl⟩ := h2 k hk
    exact ⟨u, hu, rfl⟩

/-- Witness for the amended C6: its first part applied to the concrete
top-level table of `hierTops [c6A, c6B]`, membership discharged by
evaluation. -/
theorem claim_C6_relationship_labels_witness :
    ((hierTops [c6A, c6B]).getD 0 default).parentId = none ∧
    ((hierTops [c6A, c6B]).getD 0 default).metadata.relationshipType =
      some (if ((hierTops [c6A, c6B]).getD 0 default).children = []
        then "independent" else "parent") :=
  (claim_C6_relationship_labels [c6A, c6B]).1
    ((hierTops [c6A, c6B]).getD 0 default) (by decide)

/-! ## Hierarchy validation (`validateTableHierarchy`) -/

/-- The faults of `validateTableHierarchy`: the circular-reference throw, an
unresolvable child reference (impossible in JS, where children are object
references), and fuel exhaustion of the embedded recursion (the fuel chosen
below dominates every acyclic traversal this development performs). -/
inductive VErr where
  | circular (id : Nat)
  | missing (id : Nat)
  | fuelOut
deriving DecidableEq, Repr

mutual

/-- The recursive `validateTable` closure: signal a circular reference when
the table's id was already visited, otherwise record it and descend into the
children (resolved by id in the pool, standing for the JS object
references). -/
def validateGo (pool : List Table) (fuel : Nat) (visited : List Nat) (t : Table) :
    Except VErr (List Nat) :=
  match fuel with
  | 0 => .error .fuelOut
  | fuel' + 1 =>
      if t.id ∈ visited then .error (.circular t.id)
      else validateKids pool fuel' (visited ++ [t.id]) t.children
termination_by (fuel, 0)

/-- The `table.children.forEach(validateTable)` loop. -/
def validateKids (pool : List Table) (fuel : Nat) (visited : List Nat)
    (kids : List Nat) : Except VErr (List Nat) :=
  match kids with
  | [] => .ok visited
  | cid :: rest =>
      match pool.find? (fun u => u.id == cid) with
      | some u =>
          match validateGo pool fuel visited u with
          | .ok vis' => validateKids pool fuel vis' rest
          | .error e => .error e
      | none => .error (.missing cid)
termination_by (fuel, kids.length + 1)

end

/-- `validateTableHierarchy tables`: depth-first traversal of every table with
one shared visited set. -/
def validateTableHierarchy (pool : List Table) (tops : List Table) :
    Except VErr (List Nat) :=
  tops.foldlM (fun vis t => validateGo pool (pool.length + 2) vis t) []

/-- The sequence of table ids the depth-first traversal visits over a
top-level list whose children have no further children. -/
def visitFlatten (tops : List Table) : List Nat :=
  tops.flatMap fun p => p.id :: p.children

/-- `analyzeTableHierarchy` without its catch wrapper: the labelled top-level
list when validation passes, the propagated fault otherwise. -/
def analyzeTableHierarchyE (ts : List Table) : Except VErr (List Table) :=
  match validateTableHierarchy ts (hierTops ts) with
  | .ok _ => .ok (hierTops ts)
  | .error e => .error e

theorem validateKids_ok (pool : List Table) (fuel : Nat) (hf : 1 ≤ fuel) :
    ∀ (kids vis : List Nat),
      (∀ cid ∈ kids, ∃ u, pool.find? (fun x => x.id == cid) = some u ∧
        u.children = ([] : List Nat)) →
      (vis ++ kids).Nodup →
      validateKids pool fuel vis kids = .ok (vis ++ kids) := by
  intro kids
  induction kids with
  | nil => intro vis _ _; simp [validateKids]
  | cons cid rest ih =>
      intro vis hres hnd
      obtain ⟨u, hfind, hchil⟩ := hres cid (List.mem_cons_self _ _)
      have huid : u.id = cid := by
        have := List.find?_some hfind
        simpa using this
      have hnotin : cid ∉ vis := by
        have hdisj := (List.nodup_append.mp hnd).2.2
        intro hc
        exact hdisj hc (List.mem_cons_self _ _)
      obtain ⟨fuel', rfl⟩ : ∃ f, fuel = f + 1 := ⟨fuel - 1, by omega⟩
      have hgo : validateGo pool (fuel' + 1) vis u = .ok (vis ++ [cid]) := by
        unfold validateGo
        rw [if_neg (by rw [huid]; exact hnotin), hchil, huid]
        simp [validateKids]
      have hrest : validateKids pool (fuel' + 1) (vis ++ [cid]) rest =
          .ok ((vis ++ [cid]) ++ rest) := by
        refine ih (vis ++ [cid]) (fun c hc => hres c (List.mem_cons_of_mem _ hc)) ?_
        have : (vis ++ [cid]) ++ rest = vis ++ cid :: rest := by simp
        rw [this]
        exact hnd
      unfold validateKids
      rw [hfind]
      show (match validateGo pool (fuel' + 1) vis u with
        | Except.ok vis' => validateKids pool (fuel' + 1) vis' rest
        | Except.error e => Except.error e) = Except.ok (vis ++ cid :: rest)
      rw [hgo]
      show validateKids pool (fuel' + 1) (vis ++ [cid]) rest = Except.ok (vis ++ cid :: rest)
      rw [hrest]
      simp

theorem validateFold_ok (pool : List Table) :
    ∀ (tops : List Table) (vis : List Nat),
      (∀ p ∈ tops, ∀ cid ∈ p.children,
        ∃ u, pool.find? (fun x => x.id == cid) = some u ∧
          u.children = ([] : List Nat)) →
      (vis ++ visitFlatten tops).Nodup →
      tops.foldlM (fun v t => validateGo pool (pool.length + 2) v t) vis =
        .ok (vis ++ visitFlatten tops) := by
  intro tops
  induction tops with
  | nil =>
      intro vis _ _
      simp only [List.foldlM_nil, visitFlatten, List.flatMap_nil, List.append_nil]
      rfl
  | cons p rest ih =>
      intro vis hres hnd
      have hflat : visitFlatten (p :: rest) = (p.id :: p.children) ++ visitFlatten rest := by
        simp [visitFlatten]
      rw [hflat] at hnd
      have hnd' : ((vis ++ (p.id :: p.children)) ++ visitFlatten rest).Nodup := by
        rw [List.append_assoc]
        exact hnd
      have hassoc : (vis ++ [p.id]) ++ p.children = vis ++ (p.id :: p.children) := by
        rw [List.append_assoc]
        rfl
      have hnd1 : ((vis ++ [p.id]) ++ p.children).Nodup := by
        rw [hassoc]
        exact hnd'.of_append_left
      have hpid : p.id ∉ vis := by
        have := hnd1.of_append_left
        have hnotin := (List.nodup_append.mp this).2.2
        intro hc
        exact hnotin hc (List.mem_singleton_self _)
      have hgo : validateGo pool (pool.length + 2) vis p =
          .ok ((vis ++ [p.id]) ++ p.children) := by
        unfold validateGo
        rw [if_neg hpid]
        exact validateKids_ok pool (pool.length + 1) (by omega) p.children (vis ++ [p.id])
          (fun cid hc => hres p (List.mem_cons_self _ _) cid hc) hnd1
      rw [List.foldlM_cons, hgo]
      show Except.bind _ _ = _
      rw [Except.bind]
      have hrest := ih ((vis ++ [p.id]) ++ p.children)
        (fun q hq cid hc => hres q (List.mem_cons_of_mem _ hq) cid hc)
        (by rw [hassoc, List.append_assoc]; exact hnd)
      rw [hrest]
      rw [hflat, hassoc, List.append_assoc]

/-! ## Builder invariants feeding the hierarchy validation -/

theorem scanFrom_inv (g : Grid) (P : ScanState → Prop)
    (hstep : ∀ st r, P st → P (scanRow g st r)) :
    ∀ (fuel r : Nat) (st : ScanState), P st → P (scanFrom g fuel r st) := by
  intro fuel
  induction fuel with
  | zero => intro r st h; exact h
  | succ fuel ih => intro r st h; exact ih (r + 1) (scanRow g st r) (hstep st r h)

/-- The invariant: every produced table (finished or open) has no children,
no parent and level 0. -/
def ScanFresh (st : ScanState) : Prop :=
  (∀ t ∈ st.tables, t.children = [] ∧ t.parentId = none ∧ t.level = 0) ∧
  (∀ t, st.current = some t → t.children = [] ∧ t.parentId = none ∧ t.level = 0)

theorem scanRow_fresh (g : Grid) (st : ScanState) (r : Nat) (h : ScanFresh st) :
    ScanFresh (scanRow g st r) := by
  obtain ⟨tabs, cur, nid⟩ := st
  obtain ⟨h1, h2⟩ := h
  cases cur with
  | none =>
      show ScanFresh (if (analyzeRow g r).isHeaderRow then _ else _)
      by_cases hh : (analyzeRow g r).isHeaderRow
      · rw [if_pos hh]
        refine ⟨h1, fun t ht => ?_⟩
        obtain rfl : initializeTable g r nid = t := by simpa using ht
        exact ⟨rfl, rfl, rfl⟩
      · rw [if_neg hh]
        exact ⟨h1, h2⟩
  | some t =>
      have ht := h2 t rfl
      show ScanFresh (if _ then _ else if _ then _ else _)
      by_cases hc1 : ((analyzeRow g r).isEmpty &&
          decide (1 < (analyzeRow g r).consecutiveEmptyRows)) = true
      · rw [if_pos hc1]
        refine ⟨fun q hq => ?_, fun q hq => by cases hq⟩
        rcases List.mem_append.mp hq with hmem | hmem
        · exact h1 q hmem
        · have : q = finalizeTable t (r - 1) := by simpa using hmem
          subst this
          exact ht
      · rw [if_neg hc1]
        by_cases hc2 : (!(analyzeRow g r).isEmpty) = true
        · rw [if_pos hc2]
          refine ⟨h1, fun q hq => ?_⟩
          have hq' := Option.some.inj hq
          subst hq'
          by_cases hd : (analyzeRow g r).isDataRow
          · simp only [if_pos hd]
            exact ht
          · simp only [if_neg hd]
            exact ht
        · rw [if_neg hc2]
          exact ⟨h1, h2⟩

/-- The invariant: the ids of the finished tables followed by the open
table's id form the initial segment `0, 1, …, nextId − 1`. -/
def ScanIds (st : ScanState) : Prop :=
  st.tables.map Table.id ++ (st.current.map Table.id).toList = List.range st.nextId

theorem scanRow_ids (g : Grid) (st : ScanState) (r : Nat) (h : ScanIds st) :
    ScanIds (scanRow g st r) := by
  obtain ⟨tabs, cur, nid⟩ := st
  cases cur with
  | none =>
      show ScanIds (if (analyzeRow g r).isHeaderRow then _ else _)
      by_cases hh : (analyzeRow g r).isHeaderRow
      · rw [if_pos hh]
        show tabs.map Table.id ++ [nid] = List.range (nid + 1)
        have h0 : tabs.map Table.id = List.range nid := by
          simpa [ScanIds] using h
        rw [h0, List.range_succ]
      · rw [if_neg hh]
        exact h
  | some t =>
      have h0 : tabs.map Table.id ++ [t.id] = List.range nid := by
        simpa [ScanIds] using h
      show ScanIds (if _ then _ else if _ then _ else _)
      by_cases hc1 : ((analyzeRow g r).isEmpty &&
          decide (1 < (analyzeRow g r).consecutiveEmptyRows)) = true
      · rw [if_pos hc1]
        show (tabs ++ [finalizeTable t (r - 1)]).map Table.id ++ [] = List.range nid
        rw [List.map_append, List.append_nil]
        simpa using h0
      · rw [if_neg hc1]
        by_cases hc2 : (!(analyzeRow g r).isEmpty) = true
        · rw [if_pos hc2]
          show tabs.map Table.id ++ [_] = List.range nid
          by_cases hd : (analyzeRow g r).isDataRow
          · simpa [if_pos hd] using h0
          · simpa [if_neg hd] using h0
        · rw [if_neg hc2]
          exact h

theorem findBasicTables_fresh (g : Grid) :
    ∀ t ∈ findBasicTables g, t.children = [] ∧ t.parentId = none ∧ t.level = 0 := by
  have hinv : ScanFresh (scanFrom g (g.maxRow + 1) 0
      { tables := [], current := none, nextId := 0 }) :=
    scanFrom_inv g ScanFresh (scanRow_fresh g) (g.maxRow + 1) 0 _
      ⟨(fun t ht => nomatch ht), (fun t ht => nomatch ht)⟩
  intro t ht
  obtain ⟨h1, h2⟩ := hinv
  set st := scanFrom g (g.maxRow + 1) 0
    { tables := [], current := none, nextId := 0 } with hst
  have ht' : t ∈ (match st.current with
    | some q => st.tables ++ [finalizeTable q g.maxRow]
    | none => st.tables) := ht
  cases hcur : st.current with
  | none =>
      rw [hcur] at ht'
      exact h1 t ht'
  | some q =>
      rw [hcur] at ht'
      rcases List.mem_append.mp ht' with hmem | hmem
      · exact h1 t hmem
      · have : t = finalizeTable q g.maxRow := by simpa using hmem
        subst this
        exact h2 q hcur

theorem findBasicTables_ids (g : Grid) :
    ∃ n, (findBasicTables g).map Table.id = List.range n := by
  have hinv : ScanIds (scanFrom g (g.maxRow + 1) 0
      { tables := [], current := none, nextId := 0 }) :=
    scanFrom_inv g ScanIds (scanRow_ids g) (g.maxRow + 1) 0 _ rfl
  set st := scanFrom g (g.maxRow + 1) 0
    { tables := [], current := none, nextId := 0 } with hst
  have hfb : findBasicTables g = (match st.current with
    | some q => st.tables ++ [finalizeTable q g.maxRow]
    | none => st.tables) := rfl
  unfold ScanIds at hinv
  cases hcur : st.current with
  | none =>
      rw [hcur] at hinv
      refine ⟨st.nextId, ?_⟩
      rw [hfb, hcur]
      simpa using hinv
  | some q =>
      rw [hcur] at hinv
      refine ⟨st.nextId, ?_⟩
      rw [hfb, hcur, List.map_append]
      simpa using hinv

theorem findBasicTables_ids_nodup (g : Grid) :
    ((findBasicTables g).map Table.id).Nodup := by
  obtain ⟨n, hn⟩ := findBasicTables_ids g
  rw [hn]
  exact List.nodup_range n

/-! ## Claim C7 and C10: validation success and parentless output -/

theorem flatMap_congr_mem {α β : Type} :
    ∀ (l : List α) (f h : α → List β), (∀ e ∈ l, f e = h e) →
      l.flatMap f = l.flatMap h := by
  intro l
  induction l with
  | nil => intro f h _; rfl
  | cons a rest ih =>
      intro f h hfh
      show f a ++ rest.flatMap f = h a ++ rest.flatMap h
      rw [hfh a (List.mem_cons_self _ _),
        ih f h (fun e he => hfh e (List.mem_cons_of_mem _ he))]

theorem visitFlatten_hierTops (ts : List Table) :
    visitFlatten (hierTops ts) =
      (hierRec ts).flatMap fun e => e.1.id :: e.2.map Table.id := by
  unfold visitFlatten hierTops analyzeTableRelationships
  rw [List.map_map, List.flatMap_map]
  refine flatMap_congr_mem _ _ _ ?_
  intro e he
  obtain ⟨t, _, h1, _⟩ := hierRecF_entries ts.length ts e he
  show (withRelType e.1).id :: (withRelType e.1).children = _
  have hid : (withRelType e.1).id = e.1.id := rfl
  have hch : (withRelType e.1).children = e.1.children := rfl
  rw [hid, hch, h1]

theorem hierTops_resolution (ts : List Table)
    (hchild : ∀ t ∈ ts, t.children = ([] : List Nat)) :
    ∀ p ∈ hierTops ts, ∀ cid ∈ p.children,
      ∃ u, ts.find? (fun x => x.id == cid) = some u ∧
        u.children = ([] : List Nat) := by
  intro p hp cid hcid
  obtain ⟨q0, hq0, rfl⟩ := List.mem_map.mp hp
  obtain ⟨e, he, rfl⟩ := List.mem_map.mp hq0
  obtain ⟨t, _, h1, h2⟩ := hierRecF_entries ts.length ts e he
  have hch : (withRelType e.1).children = e.2.map Table.id := by
    show (withRelType e.1).children = _
    have : (withRelType e.1).children = e.1.children := rfl
    rw [this, h1]
  rw [hch] at hcid
  obtain ⟨k, hk, rfl⟩ := List.mem_map.mp hcid
  obtain ⟨u, hu, _, rfl⟩ := h2 k hk
  have hbeq : (fun x => x.id == Table.id { u with level := 1, parentId := some t.id }) u
      = true := by
    show (u.id == u.id) = true
    simp
  have hsome : (ts.find?
      (fun x => x.id == Table.id { u with level := 1, parentId := some t.id })).isSome :=
    List.find?_isSome.mpr ⟨u, hu, hbeq⟩
  obtain ⟨u', hfind⟩ := Option.isSome_iff_exists.mp hsome
  exact ⟨u', hfind, hchild u' (List.mem_of_find?_eq_some hfind)⟩

theorem hierTops_parent_none (ts : List Table) :
    ∀ p ∈ hierTops ts, p.parentId = none := by
  intro p hp
  obtain ⟨q0, hq0, rfl⟩ := List.mem_map.mp hp
  obtain ⟨e, he, rfl⟩ := List.mem_map.mp hq0
  obtain ⟨t, _, h1, _⟩ := hierRecF_entries ts.length ts e he
  show e.1.parentId = none
  rw [h1]

/-- The depth-first validation succeeds on every builder output: the visited
id sequence is exactly the flattened visit list, which has no duplicates. -/
theorem pipeline_validation (g : Grid) :
    validateTableHierarchy (findBasicTables g) (hierTops (findBasicTables g)) =
      Except.ok (visitFlatten (hierTops (findBasicTables g))) ∧
    (visitFlatten (hierTops (findBasicTables g))).Nodup := by
  set ts := findBasicTables g with hts
  have hchild : ∀ t ∈ ts, t.children = ([] : List Nat) :=
    fun t ht => (findBasicTables_fresh g t ht).1
  have hnodupIds : (ts.map Table.id).Nodup := findBasicTables_ids_nodup g
  have hperm := hierRecF_ids_perm ts.length ts (Nat.le_refl _)
  have hnodup : (visitFlatten (hierTops ts)).Nodup := by
    rw [visitFlatten_hierTops ts]
    exact hperm.nodup_iff.mpr hnodupIds
  have hfold := validateFold_ok ts (hierTops ts) []
    (hierTops_resolution ts hchild) (by simpa using hnodup)
  refine ⟨?_, hnodup⟩
  unfold validateTableHierarchy
  rw [hfold]
  simp

theorem pipeline_hierarchyE (g : Grid) :
    analyzeTableHierarchyE (findBasicTables g) =
      Except.ok (hierTops (findBasicTables g)) := by
  unfold analyzeTableHierarchyE
  rw [(pipeline_validation g).1]

/-! ## Table merging (`groupRelatedTables`, `mergeTables`) -/

/-- The fuzzy-matching configuration: the
`headerDetection.fuzzyMatchThreshold` (default 0.6), and the
`stringSimilarity.compareTwoStrings` scoring function of the third-party
string-similarity library. That library is not part of this repository, so
the score is kept abstract, as the spec describes it: a normalized
string-similarity score over the two strings. -/
structure SimCfg where
  threshold : ℚ
  sim : String → String → ℚ

/-- JS `String.prototype.toLowerCase` (char-list based). -/
def jsLower (s : String) : String :=
  ⟨s.data.map Char.toLower⟩

/-- `areHeadersSimilar`: the similarity of the lower-cased header texts must
strictly exceed the configured threshold. -/
def areHeadersSimilar (c : SimCfg) (h1 h2 : Header) : Bool :=
  decide (c.threshold < c.sim (jsLower h1.value) (jsLower h2.value))

/-- The nested `forEach` of `areTablesRelated`: the number of header pairs
(one from each table) judged similar. -/
def matchCount (c : SimCfg) (t1 t2 : Table) : Nat :=
  (t1.headers.flatMap fun h1 => t2.headers.map fun h2 => (h1, h2)).countP
    fun p => areHeadersSimilar c p.1 p.2

/-- `areTablesRelated`: unrelated when `|t2.startRow - t1.endRow| > 5`
(`Math.abs` of the possibly negative JS subtraction); otherwise the match
count must reach `min(headerCount, headerCount) * 0.5` (rendered exactly over
the integers). -/
def areTablesRelated (c : SimCfg) (t1 t2 : Table) : Bool :=
  if ((t2.startRow : Int) - (t1.endRow : Int)).natAbs > 5 then false
  else decide (Nat.min t1.headers.length t2.headers.length ≤ 2 * matchCount c t1 t2)

/-- The greedy grouping loop of `groupRelatedTables`, rendered recursively:
the first not-yet-used table seeds a group; every later not-yet-used table
joins it exactly when related to the seed; the remainder (the unrelated
tables, in order) is grouped recursively. The used-set bookkeeping of the
source is equivalent: used tables are exactly the members of earlier groups,
and the ascending inner loop tests each unused index once against the seed.
The fuel dominates the recursion depth (each step consumes the seed). -/
def groupRec (c : SimCfg) : Nat → List Table → List (List Table)
  | 0, _ => []
  | _ + 1, [] => []
  | fuel + 1, t :: rest =>
      (t :: rest.filter (fun u => areTablesRelated c t u)) ::
        groupRec c fuel (rest.filter (fun u => !areTablesRelated c t u))

/-- `groupRelatedTables`. -/
def groupRelatedTables (c : SimCfg) (ts : List Table) : List (List Table) :=
  groupRec c ts.length ts

/-- `mergeHeaders headers1 headers2`: start from `headers1` and append each
header of `headers2` only when no already-merged header is similar to it. -/
def mergeHeaders (c : SimCfg) (hs1 hs2 : List Header) : List Header :=
  hs2.foldl
    (fun m h2 => if m.any (fun h1 => areHeadersSimilar c h1 h2) then m else m ++ [h2])
    hs1

/-- `mergeTables group`: fold the later members into the first: headers are
merged, data rows concatenated, the end row maximized. (The JS early return
for singleton groups coincides with the empty fold; the engine never calls
this with an empty group, rendered by the default table.) -/
def mergeTables (c : SimCfg) : List Table → Table
  | [] => default
  | base :: rest =>
      rest.foldl
        (fun b t =>
          { b with
              headers := mergeHeaders c b.headers t.headers
              dataRows := b.dataRows ++ t.dataRows
              endRow := max b.endRow t.endRow })
        base

/-- `processAndMergeTables` (the successful path): group, merge each group,
deduplicate each merged table's rows. -/
def processAndMergeTables (c : SimCfg) (ts : List Table) : List Table :=
  ((groupRelatedTables c ts).map (mergeTables c)).map processTableData

theorem groupRec_join_perm (c : SimCfg) :
    ∀ (fuel : Nat) (ts : List Table), ts.length ≤ fuel →
      ((groupRec c fuel ts).flatten).Perm ts := by
  intro fuel
  induction fuel with
  | zero =>
      intro ts h
      have hnil : ts = [] := List.length_eq_zero.mp (by omega)
      subst hnil
      exact List.Perm.refl _
  | succ fuel ih =>
      intro ts h
      cases ts with
      | nil => exact List.Perm.refl _
      | cons t rest =>
          have hlen : (rest.filter (fun u => !areTablesRelated c t u)).length ≤ fuel := by
            have := List.length_filter_le (fun u => !areTablesRelated c t u) rest
            simp at h
            omega
          have hrec := ih _ hlen
          show ((t :: rest.filter (fun u => areTablesRelated c t u)) ++
            (groupRec c fuel (rest.filter (fun u => !areTablesRelated c t u))).flatten).Perm
              (t :: rest)
          refine List.Perm.trans ?_
            (List.Perm.cons t
              (List.filter_append_perm (fun u => areTablesRelated c t u) rest))
          exact List.Perm.cons t (List.Perm.append_left _ hrec)

theorem groupRec_mem_of_mem (c : SimCfg) :
    ∀ (fuel : Nat) (ts : List Table) (g : List Table) (u : Table),
      g ∈ groupRec c fuel ts → u ∈ g → u ∈ ts := by
  intro fuel
  induction fuel with
  | zero => intro ts g u hg; cases hg
  | succ fuel ih =>
      intro ts g u hg hu
      cases ts with
      | nil => cases hg
      | cons t rest =>
          rcases List.mem_cons.mp hg with rfl | htail
          · rcases List.mem_cons.mp hu with rfl | hmem
            · exact List.mem_cons_self _ _
            · exact List.mem_cons_of_mem _ (List.mem_of_mem_filter hmem)
          · have := ih _ g u htail hu
            exact List.mem_cons_of_mem _
              (List.mem_of_mem_filter this)

theorem groupRec_sound (c : SimCfg) :
    ∀ (fuel : Nat) (ts : List Table) (g : List Table), g ∈ groupRec c fuel ts →
      ∃ seed rest', g = seed :: rest' ∧
        ∀ u ∈ rest', areTablesRelated c seed u = true := by
  intro fuel
  induction fuel with
  | zero => intro ts g hg; cases hg
  | succ fuel ih =>
      intro ts g hg
      cases ts with
      | nil => cases hg
      | cons t rest =>
          rcases List.mem_cons.mp hg with rfl | htail
          · exact ⟨t, _, rfl, fun u hu => (List.mem_filter.mp hu).2⟩
          · exact ih _ g htail

theorem groupRec_separated (c : SimCfg) :
    ∀ (fuel : Nat) (ts : List Table),
      List.Pairwise
        (fun g1 g2 => ∀ u ∈ g2, areTablesRelated c (g1.headD default) u = false)
        (groupRec c fuel ts) := by
  intro fuel
  induction fuel with
  | zero => intro ts; exact List.Pairwise.nil
  | succ fuel ih =>
      intro ts
      cases ts with
      | nil => exact List.Pairwise.nil
      | cons t rest =>
          refine List.Pairwise.cons ?_ (ih _)
          intro g2 hg2 u hu
          have humem : u ∈ rest.filter (fun u => !areTablesRelated c t u) :=
            groupRec_mem_of_mem c fuel _ g2 u hg2 hu
          have := (List.mem_filter.mp humem).2
          simpa using this

theorem foldl_max_spec :
    ∀ (l : List Nat) (e : Nat),
      e ≤ l.foldl max e ∧ (∀ x ∈ l, x ≤ l.foldl max e) ∧
        (l.foldl max e = e ∨ l.foldl max e ∈ l) := by
  intro l
  induction l with
  | nil => intro e; exact ⟨Nat.le_refl e, by simp, Or.inl rfl⟩
  | cons a rest ih =>
      intro e
      obtain ⟨h1, h2, h3⟩ := ih (max e a)
      refine ⟨Nat.le_trans (Nat.le_max_left e a) h1, ?_, ?_⟩
      · intro x hx
        rcases List.mem_cons.mp hx with rfl | hmem
        · exact Nat.le_trans (Nat.le_max_right e x) h1
        · exact h2 x hmem
      · rcases h3 with heq | hmem
        · rcases Nat.le_total e a with hle | hle
          · right
            rw [List.foldl_cons, heq, Nat.max_eq_right hle]
            exact List.mem_cons_self _ _
          · left
            rw [List.foldl_cons, heq, Nat.max_eq_left hle]
        · right
          exact List.mem_cons_of_mem _ hmem

theorem mergeFold_spec (c : SimCfg) :
    ∀ (rest : List Table) (b : Table),
      (mergeTables c (b :: rest)).dataRows =
          b.dataRows ++ (rest.map Table.dataRows).flatten ∧
      (mergeTables c (b :: rest)).endRow = (rest.map Table.endRow).foldl max b.endRow ∧
      (mergeTables c (b :: rest)).headers =
          (rest.map Table.headers).foldl (mergeHeaders c) b.headers ∧
      (mergeTables c (b :: rest)).id = b.id ∧
      (mergeTables c (b :: rest)).startRow = b.startRow ∧
      (mergeTables c (b :: rest)).parentId = b.parentId ∧
      (mergeTables c (b :: rest)).children = b.children := by
  intro rest
  induction rest with
  | nil => intro b; exact ⟨by simp [mergeTables], rfl, rfl, rfl, rfl, rfl, rfl⟩
  | cons t rest ih =>
      intro b
      have hstep : mergeTables c (b :: t :: rest) =
          mergeTables c
            ({ b with
                headers := mergeHeaders c b.headers t.headers
                dataRows := b.dataRows ++ t.dataRows
                endRow := max b.endRow t.endRow } :: rest) := rfl
      obtain ⟨h1, h2, h3, h4, h5, h6, h7⟩ := ih
        { b with
            headers := mergeHeaders c b.headers t.headers
            dataRows := b.dataRows ++ t.dataRows
            endRow := max b.endRow t.endRow }
      rw [hstep]
      exact ⟨by simpa [List.append_assoc] using h1, h2, h3, h4, h5, h6, h7⟩

theorem areTablesRelated_eq_true_iff (c : SimCfg) (t1 t2 : Table) :
    areTablesRelated c t1 t2 = true ↔
      ((t2.startRow : Int) - (t1.endRow : Int)).natAbs ≤ 5 ∧
        Nat.min t1.headers.length t2.headers.length ≤ 2 * matchCount c t1 t2 := by
  constructor
  · intro htrue
    unfold areTablesRelated at htrue
    by_cases h : ((t2.startRow : Int) - (t1.endRow : Int)).natAbs > 5
    · rw [if_pos h] at htrue; cases htrue
    · rw [if_neg h] at htrue
      exact ⟨by omega, of_decide_eq_true htrue⟩
  · rintro ⟨h1, h2⟩
    unfold areTablesRelated
    rw [if_neg (by omega)]
    exact decide_eq_true h2

/-- The fuzzy-matching configuration of the C3 refutation: the default 0.6
threshold, and exact-equality similarity (score 1 for equal lower-cased
texts, 0 otherwise). -/
def c3cfg : SimCfg :=
  { threshold := ⟨3, 5, by decide, by decide⟩
    sim := fun a b => if a = b then 1 else 0 }

def c3T : Table :=
  { (default : Table) with
      id := 0, startRow := 0, endRow := 20
      headers := [{ row := 0, column := 0, value := "Product Name", level := 0 }] }

def c3U : Table :=
  { (default : Table) with
      id := 1, startRow := 5, endRow := 6
      headers := [{ row := 5, column := 0, value := "Product Name", level := 0 }] }

/-- Counterexample to C3: `c3U` is a later unused table with
`U.startRow − T.endRow = −15 ≤ 5` and identical headers (the similarity count
reaches half the minimum header count), so the claim places it in `c3T`'s
group; but the code compares `Math.abs(−15) = 15 > 5` and keeps the two
tables in separate groups. -/
theorem claim_C3_counterexample :
    ((c3U.startRow : Int) - (c3T.endRow : Int) ≤ 5) ∧
    Nat.min c3T.headers.length c3U.headers.length ≤ 2 * matchCount c3cfg c3T c3U ∧
    groupRelatedTables c3cfg [c3T, c3U] = [[c3T], [c3U]] := by
  refine ⟨by decide, by decide, ?_⟩
  decide

/-- C3 as amended: with the gap condition read as `|U.startRow − T.endRow| ≤ 5`
(the code's `Math.abs`), the grouping and merging behave as claimed: every
table lands in exactly one group; each group is its seed (first member)
followed by the later tables whose gap to the seed is at most 5 in absolute
value and whose similar-header-pair count is at least half the smaller header
count; members of a later group are never related to an earlier group's seed;
and merging folds a group into its first member with concatenated data rows,
maximal end row and headers folded through `mergeHeaders` (identity, start
row and parent untouched). -/
theorem claim_C3_grouping_merging (c : SimCfg) (ts : List Table) :
    ((groupRelatedTables c ts).flatten).Perm ts ∧
    (∀ g ∈ groupRelatedTables c ts, ∃ seed rest', g = seed :: rest' ∧
      ∀ u ∈ rest', ((u.startRow : Int) - (seed.endRow : Int)).natAbs ≤ 5 ∧
        Nat.min seed.headers.length u.headers.length ≤ 2 * matchCount c seed u) ∧
    List.Pairwise
      (fun g1 g2 => ∀ u ∈ g2, areTablesRelated c (g1.headD default) u = false)
      (groupRelatedTables c ts) ∧
    (∀ (b : Table) (rest' : List Table),
      (mergeTables c (b :: rest')).dataRows =
          b.dataRows ++ (rest'.map Table.dataRows).flatten ∧
      (∀ u ∈ b :: rest', u.endRow ≤ (mergeTables c (b :: rest')).endRow) ∧
      (∃ u ∈ b :: rest', (mergeTables c (b :: rest')).endRow = u.endRow) ∧
      (mergeTables c (b :: rest')).headers =
          (rest'.map Table.headers).foldl (mergeHeaders c) b.headers ∧
      (mergeTables c (b :: rest')).id = b.id ∧
      (mergeTables c (b :: rest')).startRow = b.startRow ∧
      (mergeTables c (b :: rest')).parentId = b.parentId) := by
  refine ⟨groupRec_join_perm c ts.length ts (Nat.le_refl _), ?_,
    groupRec_separated c ts.length ts, ?_⟩
  · intro g hg
    obtain ⟨seed, rest', rfl, hrel⟩ := groupRec_sound c ts.length ts g hg
    exact ⟨seed, rest', rfl, fun u hu =>
      (areTablesRelated_eq_true_iff c seed u).mp (hrel u hu)⟩
  · intro b rest'
    obtain ⟨h1, h2, h3, h4, h5, h6, _⟩ := mergeFold_spec c rest' b
    obtain ⟨hm1, hm2, hm3⟩ := foldl_max_spec (rest'.map Table.endRow) b.endRow
    refine ⟨h1, ?_, ?_, h3, h4, h5, h6⟩
    · intro u hu
      rcases List.mem_cons.mp hu with rfl | hmem
      · rw [h2]; exact hm1
      · rw [h2]; exact hm2 _ (List.mem_map_of_mem _ hmem)
    · rcases hm3 with heq | hmem
      · exact ⟨b, List.mem_cons_self _ _, by rw [h2, heq]⟩
      · obtain ⟨u, hu, hueq⟩ := List.mem_map.mp hmem
        exact ⟨u, List.mem_cons_of_mem _ hu, by rw [h2, ← hueq]⟩

def c3V : Table :=
  { (default : Table) with
      id := 1, startRow := 23, endRow := 25
      headers := [{ row := 23, column := 0, value := "Product Name", level := 0 }]
      dataRows := [[("Product Name", Value.str "Gadget")]] }

/-- Witness for the amended C3: two tables with gap 3 and identical headers
form one group, and the theorem's merge conclusions hold there concretely. -/
theorem claim_C3_grouping_merging_witness :
    groupRelatedTables c3cfg [c3T, c3V] = [[c3T, c3V]] ∧
    (mergeTables c3cfg [c3T, c3V]).dataRows =
      c3T.dataRows ++ ([c3V].map Table.dataRows).flatten ∧
    ((groupRelatedTables c3cfg [c3T, c3V]).flatten).Perm [c3T, c3V] :=
  ⟨by decide,
   ((claim_C3_grouping_merging c3cfg [c3T, c3V]).2.2.2 c3T [c3V]).1,
   (claim_C3_grouping_merging c3cfg [c3T, c3V]).1⟩

/-! ## Error handling (`handleError` and the five phase try/catch wrappers) -/

/-- A JS exception as observed by `handleError`: its message and stack. -/
structure JsError where
  message : String
  stack : String
deriving DecidableEq, Repr

/-- A structured entry of the parser's error log. -/
structure ErrorInfo where
  id : String
  context : String
  message : String
  stack : String
  timestamp : String
deriving DecidableEq, Repr

/-- The error-handling configuration and ambient effects: the strict-mode flag
`errorHandling.throwErrors`, and the `uuidv4()` / `new Date().toISOString()`
generators, modelled as oracles indexed by the running error count. -/
structure ErrCfg where
  throwErrors : Bool
  uuid : Nat → String
  now : Nat → String

/-- The parser instance's mutable error state: the append-only `this.errors`
log and the `performanceMetrics.errorsEncountered` counter. -/
structure PState where
  errors : List ErrorInfo
  errorsEncountered : Nat
deriving DecidableEq

/-- The structured entry built at the top of `handleError`. -/
def mkErrorInfo (c : ErrCfg) (st : PState) (context : String) (e : JsError) :
    ErrorInfo :=
  { id := c.uuid st.errorsEncountered
    context := context
    message := e.message
    stack := e.stack
    timestamp := c.now st.errorsEncountered }

/-- The unconditional part of `handleError`: append the entry and increment
the counter. -/
def recordError (c : ErrCfg) (st : PState) (context : String) (e : JsError) :
    PState :=
  { errors := st.errors ++ [mkErrorInfo c st context e]
    errorsEncountered := st.errorsEncountered + 1 }

/-- `handleError context error`: record the error, then re-throw it exactly
when strict mode is on (the returned option is the propagated exception). -/
def handleError (c : ErrCfg) (st : PState) (context : String) (e : JsError) :
    PState × Option JsError :=
  (recordError c st context e, if c.throwErrors then some e else none)

/-- The try/catch wrapper shared by the five top-level phases: a successful
body passes through untouched; a thrown body is routed through `handleError`
and, in lenient mode, replaced by the phase's fallback value. The body is the
outcome of the JS try-block, which may throw (`Except.error`). -/
def runPhase {α : Type} (c : ErrCfg) (st : PState) (name : String)
    (body : Except JsError α) (fallback : α) : PState × Except JsError α :=
  match body with
  | .ok a => (st, .ok a)
  | .error e =>
      match handleError c st name e with
      | (st', some e') => (st', .error e')
      | (st', none) => (st', .ok fallback)

/-- Phase `table-detection` (`findTableStructures`): fallback `[]`. -/
def findTableStructuresPhase (c : ErrCfg) (st : PState)
    (body : Except JsError (List Table)) : PState × Except JsError (List Table) :=
  runPhase c st "table-detection" body []

/-- Phase `basic-table-detection` (`findBasicTables`): fallback `[]`. -/
def findBasicTablesPhase (c : ErrCfg) (st : PState)
    (body : Except JsError (List Table)) : PState × Except JsError (List Table) :=
  runPhase c st "basic-table-detection" body []

/-- Phase `hierarchy-analysis` (`analyzeTableHierarchy`): fallback is the
input table list (the tables produced so far). -/
def analyzeTableHierarchyPhase (c : ErrCfg) (st : PState) (tables : List Table)
    (body : Except JsError (List Table)) : PState × Except JsError (List Table) :=
  runPhase c st "hierarchy-analysis" body tables

/-- Phase `table-merging` (`processAndMergeTables`): fallback is the input
table list. -/
def processAndMergeTablesPhase (c : ErrCfg) (st : PState) (tables : List Table)
    (body : Except JsError (List Table)) : PState × Except JsError (List Table) :=
  runPhase c st "table-merging" body tables

/-- Phase `data-grouping` (`findRelatedDataGroups`): fallback is the empty
map, rendered as an empty association list of named groups. -/
def findRelatedDataGroupsPhase {γ : Type} (c : ErrCfg) (st : PState)
    (body : Except JsError (List (String × γ))) :
    PState × Except JsError (List (String × γ)) :=
  runPhase c st "data-grouping" body []

/-- C9: for every phase, a thrown body is caught and recorded as a structured
entry appended to the error log (id, phase context, message, stack,
timestamp), the error counter is incremented, and in lenient mode the phase
returns its safe fallback while in strict mode the error is re-thrown; a
successful body leaves the state untouched. The five phase wrappers
instantiate the generic wrapper at their phase names and fallbacks. -/
theorem claim_C9_phase_error_isolation {α γ : Type} (c : ErrCfg) (st : PState)
    (name : String) (fb : α) (e : JsError) :
    ((runPhase c st name (Except.error e) fb).1.errors =
        st.errors ++ [{ id := c.uuid st.errorsEncountered
                        context := name
                        message := e.message
                        stack := e.stack
                        timestamp := c.now st.errorsEncountered }] ∧
      (runPhase c st name (Except.error e) fb).1.errorsEncountered =
        st.errorsEncountered + 1) ∧
    (c.throwErrors = false →
      (runPhase c st name (Except.error e) fb).2 = Except.ok fb) ∧
    (c.throwErrors = true →
      (runPhase c st name (Except.error e) fb).2 = Except.error e) ∧
    (∀ a : α, runPhase c st name (Except.ok a) fb = (st, Except.ok a)) ∧
    (∀ b, findTableStructuresPhase c st b = runPhase c st "table-detection" b []) ∧
    (∀ b, findBasicTablesPhase c st b = runPhase c st "basic-table-detection" b []) ∧
    (∀ (tables : List Table) b, analyzeTableHierarchyPhase c st tables b =
      runPhase c st "hierarchy-analysis" b tables) ∧
    (∀ (tables : List Table) b, processAndMergeTablesPhase c st tables b =
      runPhase c st "table-merging" b tables) ∧
    (∀ b : Except JsError (List (String × γ)),
      findRelatedDataGroupsPhase c st b = runPhase c st "data-grouping" b []) := by
  refine ⟨⟨?_, ?_⟩, ?_, ?_, fun a => rfl, fun b => rfl, fun b => rfl,
    fun tables b => rfl, fun tables b => rfl, fun b => rfl⟩
  · cases h : c.throwErrors <;>
      simp [runPhase, handleError, recordError, mkErrorInfo, h]
  · cases h : c.throwErrors <;>
      simp [runPhase, handleError, recordError, mkErrorInfo, h]
  · intro h
    simp [runPhase, handleError, recordError, h]
  · intro h
    simp [runPhase, handleError, recordError, h]

/-- A concrete configuration, state and error for the C9 witness. -/
def c9err : JsError := { message := "boom", stack := "trace" }

def c9lenient : ErrCfg :=
  { throwErrors := false, uuid := fun n => toString n, now := fun _ => "t0" }

def c9strict : ErrCfg :=
  { throwErrors := true, uuid := fun n => toString n, now := fun _ => "t0" }

/-- Witness for C9: the generic wrapper applied at a concrete lenient
configuration (fallback returned, entry logged) and at a concrete strict
configuration (error re-thrown). -/
theorem claim_C9_phase_error_isolation_witness :
    (runPhase c9lenient { errors := [], errorsEncountered := 0 } "table-detection"
        (Except.error c9err) ([] : List Table)).2 = Except.ok [] ∧
    (runPhase c9strict { errors := [], errorsEncountered := 0 } "table-detection"
        (Except.error c9err) ([] : List Table)).2 = Except.error c9err ∧
    (runPhase c9lenient { errors := [], errorsEncountered := 0 } "table-detection"
        (Except.error c9err) ([] : List Table)).1.errorsEncountered = 1 :=
  ⟨(claim_C9_phase_error_isolation (γ := Unit) c9lenient
      { errors := [], errorsEncountered := 0 } "table-detection" [] c9err).2.1 rfl,
   (claim_C9_phase_error_isolation (γ := Unit) c9strict
      { errors := [], errorsEncountered := 0 } "table-detection" [] c9err).2.2.1 rfl,
   (claim_C9_phase_error_isolation (γ := Unit) c9lenient
      { errors := [], errorsEncountered := 0 } "table-detection" [] c9err).1.2⟩

/-- A concrete table for the C4 witness: the second row duplicates the first
on 100% of its fields, the third agrees on only half. -/
def c4tab : Table :=
  { (default : Table) with
      dataRows :=
        [ [("A", Value.str "x"), ("B", Value.str "y")]
        , [("A", Value.str "x"), ("B", Value.str "y")]
        , [("A", Value.str "z"), ("B", Value.str "y")] ] }

/-- Witness for C4: on `c4tab` the duplicate middle row is dropped and the
theorem's conclusions hold at that concrete input. -/
theorem claim_C4_dedup_witness :
    (processTableData c4tab).dataRows =
      [ [("A", Value.str "x"), ("B", Value.str "y")]
      , [("A", Value.str "z"), ("B", Value.str "y")] ] ∧
    ((processTableData c4tab).dataRows.Sublist c4tab.dataRows ∧
      List.Pairwise (fun a b => rowsMatch a b = false) (processTableData c4tab).dataRows ∧
      (∀ r ∈ c4tab.dataRows, r ∈ (processTableData c4tab).dataRows ∨
        ∃ k ∈ (processTableData c4tab).dataRows, rowsMatch k r = true)) :=
  ⟨by decide, claim_C4_dedup c4tab⟩

/-! ## Claims C7 and C10 -/

theorem processAndMerge_parent_none (c : SimCfg) (tops : List Table)
    (hp : ∀ p ∈ tops, p.parentId = none) :
    ∀ t ∈ processAndMergeTables c tops, t.parentId = none := by
  intro t ht
  unfold processAndMergeTables at ht
  obtain ⟨m, hm, rfl⟩ := List.mem_map.mp ht
  obtain ⟨gset, hg, rfl⟩ := List.mem_map.mp hm
  obtain ⟨seed, rest', rfl, _⟩ := groupRec_sound c tops.length tops gset hg
  have hparent : (mergeTables c (seed :: rest')).parentId = seed.parentId :=
    (mergeFold_spec c rest' seed).2.2.2.2.2.1
  show (processTableData (mergeTables c (seed :: rest'))).parentId = none
  have hpd : (processTableData (mergeTables c (seed :: rest'))).parentId =
      (mergeTables c (seed :: rest')).parentId := rfl
  rw [hpd, hparent]
  exact hp seed (groupRec_mem_of_mem c tops.length tops _ seed hg
    (List.mem_cons_self _ _))

/-- C7: on every table list produced by `findBasicTables` and
hierarchy-resolved by `analyzeTableHierarchy`, the depth-first revisit check
visits each table id exactly once (the visit list has no duplicates — the
parent/child structure is an acyclic forest), the circular-reference branch
is never taken, and the hierarchy pass returns its top-level list without any
fault. -/
theorem claim_C7_no_circular_error (g : Grid) :
    validateTableHierarchy (findBasicTables g) (hierTops (findBasicTables g)) =
      Except.ok (visitFlatten (hierTops (findBasicTables g))) ∧
    (visitFlatten (hierTops (findBasicTables g))).Nodup ∧
    analyzeTableHierarchyE (findBasicTables g) =
      Except.ok (hierTops (findBasicTables g)) :=
  ⟨(pipeline_validation g).1, (pipeline_validation g).2, pipeline_hierarchyE g⟩

/-- C10: every table in the list returned by `analyzeTableHierarchy` on
builder output — and hence every table in the final merged output list — has
`parent = null`; a claimed child is reachable only through its parent's
children and never sits in the top-level result. -/
theorem claim_C10_output_parentless (g : Grid) (c : SimCfg) :
    analyzeTableHierarchyE (findBasicTables g) =
      Except.ok (hierTops (findBasicTables g)) ∧
    (∀ t ∈ hierTops (findBasicTables g), t.parentId = none) ∧
    (∀ t ∈ processAndMergeTables c (hierTops (findBasicTables g)),
      t.parentId = none) :=
  ⟨pipeline_hierarchyE g, hierTops_parent_none _,
   processAndMerge_parent_none c _ (hierTops_parent_none _)⟩

/-- Witness for C10: the pipeline on the concrete C1 scenario grid yields a
single top-level table, and the theorem applied there gives its missing
parent. -/
theorem claim_C10_output_parentless_witness :
    ((hierTops (findBasicTables c1grid)).getD 0 default).parentId = none ∧
    ((processAndMergeTables c3cfg (hierTops (findBasicTables c1grid))).getD 0
      default).parentId = none :=
  ⟨(claim_C10_output_parentless c1grid c3cfg).2.1
      ((hierTops (findBasicTables c1grid)).getD 0 default) (by decide),
   (claim_C10_output_parentless c1grid c3cfg).2.2
      ((processAndMergeTables c3cfg (hierTops (findBasicTables c1grid))).getD 0
        default) (by decide)⟩
